import Mathlib

/-!
# Verification of `discovery`: deployment expansion and the executor event loop

Shallow embedding of

* `deployer/deployer/desc.go` : `Job.ContainerID`, `Job.Containers`;
* `executor/engine.go` : `Executor.createTask`, `Executor.createGroup`,
  `Executor.deleteGroup` and the three branches of `Executor.run`.

Go strings are `String`, Go `uint` is `Nat` (the loop counter of `Containers`
stays below `Instances`, so it never wraps), Go maps are association lists
read by first match, and the containerd client is an oracle whose answers may
depend on the whole history of calls. A run of an operation is either a new
state or an abort of the supervisor process.
-/

namespace Discovery

/-! ## deployer/deployer/desc.go -/

/-- The `runtime.Container` literal built by `Job.Containers`. -/
structure Container where
  ID : String
  Remote : String
  Namespace : String
  deriving DecidableEq, Repr

/-- Go: `type Job struct { Name string; Remote string; Instances uint }`. -/
structure Job where
  Name : String
  Remote : String
  Instances : Nat
  deriving DecidableEq, Repr

/-- Go: `type Deployment struct { Name string; Jobs []Job }`. -/
structure Deployment where
  Name : String
  Jobs : List Job
  deriving DecidableEq, Repr

/-- Go: `return "deployment." + d.Name`. -/
def Deployment.Namespace (d : Deployment) : String :=
  "deployment." ++ d.Name

/-- Go: `fmt.Sprintf("%s.%d", j.Name, instanceNumber)`; the verb `%d` of an
unsigned integer is its decimal rendering, which is `Nat.repr`. -/
def Job.ContainerID (j : Job) (instanceNumber : Nat) : String :=
  j.Name ++ "." ++ Nat.repr instanceNumber

/-- The body of `for i := uint(0); i < j.Instances; i++ { containers = append(...) }`
started at counter `i` with the slice `containers`; `fuel` bounds the number
of iterations and `Job.Containers` supplies `j.Instances`, which is enough. -/
def Job.containersLoop (j : Job) (ns : String) : Nat → Nat → List Container → List Container
  | 0, _, containers => containers
  | fuel + 1, i, containers =>
    if i < j.Instances then
      Job.containersLoop j ns fuel (i + 1)
        (containers ++ [{ ID := j.ContainerID i, Remote := j.Remote, Namespace := ns }])
    else containers

/-- Go: `func (j *Job) Containers(namespace string) []runtime.Container`. -/
def Job.Containers (j : Job) (ns : String) : List Container :=
  Job.containersLoop j ns j.Instances 0 []

/-- Value of a digit character. -/
def digitVal (c : Char) : Nat := c.toNat - 48

/-- Value of a string of decimal digits, most significant first. -/
def decodeDigits (cs : List Char) : Nat :=
  cs.foldl (fun a c => 10 * a + digitVal c) 0

/-! ## executor/engine.go : data -/

/-- Go `map[string]V`: an association list; the order of the entries stands
for the order in which one `range` visits them, which Go leaves unspecified,
so a statement proved for every list holds for every visiting order. -/
abbrev GoMap (V : Type) := List (String × V)

/-- Go: `m[k]` with the comma-ok result (`none` when the key is absent). -/
def GoMap.get? {V : Type} : GoMap V → String → Option V
  | [], _ => none
  | (k, v) :: m, x => if k = x then some v else GoMap.get? m x

/-- Go: `m[k] = v`; an existing key keeps its place and takes the new value. -/
def GoMap.set {V : Type} : GoMap V → String → V → GoMap V
  | [], x, v => [(x, v)]
  | (k, w) :: m, x, v => if k = x then (k, v) :: m else (k, w) :: GoMap.set m x v

/-- Go: `delete(m, k)`. -/
def GoMap.delete {V : Type} : GoMap V → String → GoMap V
  | [], _ => []
  | (k, w) :: m, x => if k = x then GoMap.delete m x else (k, w) :: GoMap.delete m x

/-- The keys of a map, in entry order. -/
def GoMap.keys {V : Type} (m : GoMap V) : List String := m.map Prod.fst

/-- The values of a map, in entry order. -/
def GoMap.values {V : Type} (m : GoMap V) : List V := m.map Prod.snd

/-- Modelled from the spec: the declaration of `Machine` is not among the
sources; an Instance Descriptor carries a GUID and an image reference, and
these are the two fields the executor reads (`machine.GUID`, `machine.Remote`). -/
structure Machine where
  GUID : String
  Remote : String
  deriving DecidableEq, Repr

/-- Go zero value `Machine{}`, the result of indexing a map at an absent key. -/
def Machine.zero : Machine := { GUID := "", Remote := "" }

/-- Modelled from the spec: the declaration of `Group` is not among the
sources; a Group is a name and a mapping from instance key to Instance
Descriptor, used by the executor as `group.Name` and `group.Machines`. -/
structure Group where
  Name : String
  Machines : GoMap Machine
  deriving DecidableEq, Repr

/-- Go: `type TaskExitCode struct`; `ExitCode` is the exit status code. -/
structure TaskExitCode where
  GroupName : String
  TaskGUID : String
  TaskRemote : String
  ExitCode : Nat
  deriving DecidableEq, Repr

/-- A non-nil `containerd.Task` value, identified by a number. -/
abbrev Task := Nat

/-- A `containerd.Container` value returned by `LoadContainer`. -/
abbrev ContainerHandle := Nat

/-- Go `syscall.Signal`. -/
abbrev Signal := Nat

/-- Go `syscall.SIGTERM`. -/
def SIGTERM : Signal := 15

/-- Go `syscall.SIGKILL`. -/
def SIGKILL : Signal := 9

/-- The constants of `containerd.ProcessStatus`. -/
inductive ProcessStatus
  | Running
  | Created
  | Stopped
  | Paused
  | Pausing
  | Unknown
  deriving DecidableEq, Repr

/-- An error of the execution service, with the two classes that
`errdefs.IsNotFound` and `errdefs.IsFailedPrecondition` recognise. -/
structure Err where
  IsNotFound : Bool
  IsFailedPrecondition : Bool
  deriving DecidableEq, Repr

/-- One call issued to the execution service (or one receive on an exit channel). -/
inductive Call
  | runTask (machine : Machine) (name : String)
  | wait (task : Task)
  | start (task : Task)
  | status (task : Task)
  | kill (task : Task) (sig : Signal) (killAll : Bool)
  | deleteTask (task : Task)
  | recvExit (task : Task)
  | loadContainer (id : String)
  | deleteContainer (c : ContainerHandle) (snapshotCleanup : Bool)
  deriving DecidableEq, Repr

/-- The execution service as an oracle: the answer to a call may depend on
every call issued before it. `runTask` is the helper of the executor package
that resolves the image and creates the task; its source is not available and
it is treated as one more call of the service. -/
structure Service where
  runTask : List Call → Machine → String → Except Err Task
  wait : List Call → Task → Except Err Unit
  start : List Call → Task → Except Err Unit
  status : List Call → Task → Except Err ProcessStatus
  kill : List Call → Task → Signal → Bool → Except Err Unit
  deleteTask : List Call → Task → Except Err Unit
  loadContainer : List Call → String → Except Err ContainerHandle
  deleteContainer : List Call → ContainerHandle → Bool → Except Err Unit

/-- The exit watcher goroutine started by `createTask`: it waits on the exit
channel of `task` and then sends a `TaskExitCode` with these three fields. -/
structure Watcher where
  task : Task
  GroupName : String
  TaskGUID : String
  TaskRemote : String
  deriving DecidableEq, Repr

/-- The termination event a watcher sends when its task exits with `code`. -/
def Watcher.event (w : Watcher) (code : Nat) : TaskExitCode :=
  { GroupName := w.GroupName, TaskGUID := w.TaskGUID, TaskRemote := w.TaskRemote,
    ExitCode := code }

/-- One line written through the `log` package by `Executor.run`: the
`log.Printf` of line 106 and the `log.Println` of line 131. -/
inductive LogLine
  | exited (ev : TaskExitCode)
  | containerDeleteFailed (guid : String) (remote : String)
  deriving DecidableEq, Repr

/-- Go: `type Executor struct`, with the calls issued so far, the exit
watchers started so far and the lines logged so far made explicit. The
client, the context and the channels are the environment. -/
structure Executor where
  Namespace : String
  Groups : GoMap Group
  Tasks : GoMap Task
  calls : List Call
  watchers : List Watcher
  log : List LogLine
  deriving DecidableEq, Repr

/-- Go: `NewExecutor`. -/
def NewExecutor (ns : String) : Executor :=
  { Namespace := ns, Groups := [], Tasks := [], calls := [], watchers := [], log := [] }

/-- How the supervisor process ends early: `log.Fatalln`, or the run-time
panic of a method call on the nil `containerd.Task` that indexing `Tasks` at
an absent key yields. -/
inductive Abort
  | fatal
  | nilPanic
  deriving DecidableEq, Repr

/-! ## executor/engine.go : operations -/

/-- Go: `func (e *Executor) createTask(groupName string, machine Machine)`. -/
def createTask (svc : Service) (e : Executor) (groupName : String) (machine : Machine) :
    Except Abort Executor :=
  match svc.runTask e.calls machine ("discovery-" ++ groupName) with
  | .error _ => .error .fatal
  | .ok task =>
    let c1 := e.calls ++ [Call.runTask machine ("discovery-" ++ groupName)]
    match svc.wait c1 task with
    | .error _ => .error .fatal
    | .ok _ =>
      let c2 := c1 ++ [Call.wait task]
      match svc.start c2 task with
      | .error _ => .error .fatal
      | .ok _ =>
        .ok { e with
              calls := c2 ++ [Call.start task]
              Tasks := e.Tasks.set machine.Remote task
              watchers := e.watchers ++
                [{ task := task, GroupName := groupName, TaskGUID := machine.GUID,
                   TaskRemote := machine.Remote }] }

/-- The loop `for _, machine := range group.Machines { e.createTask(...) }`. -/
def createTasks (svc : Service) (groupName : String) :
    List (String × Machine) → Executor → Except Abort Executor
  | [], e => .ok e
  | (_, machine) :: rest, e =>
    match createTask svc e groupName machine with
    | .error a => .error a
    | .ok e1 => createTasks svc groupName rest e1

/-- Go: `func (e *Executor) createGroup(group Group)`. -/
def createGroup (svc : Service) (e : Executor) (group : Group) : Except Abort Executor :=
  createTasks svc group.Name group.Machines
    { e with Groups := e.Groups.set group.Name group }

/-- The condition of line 87: the status is Running, Paused or Pausing. -/
def ProcessStatus.signalled (s : ProcessStatus) : Bool :=
  s = ProcessStatus.Running || s = ProcessStatus.Paused || s = ProcessStatus.Pausing

/-- The loop `for remote := range e.Groups[groupName].Machines { ... }` of
`deleteGroup`. -/
def deleteGroupLoop (svc : Service) :
    List (String × Machine) → Executor → Except Abort Executor
  | [], e => .ok e
  | (remote, _) :: rest, e =>
    match e.Tasks.get? remote with
    | none => .error .nilPanic
    | some task =>
      match svc.status e.calls task with
      | .error _ => .error .fatal
      | .ok prevStatus =>
        let c1 := e.calls ++ [Call.status task]
        if prevStatus.signalled then
          match svc.kill c1 task SIGTERM false with
          | .error _ => .error .fatal
          | .ok _ =>
            deleteGroupLoop svc rest { e with calls := c1 ++ [Call.kill task SIGTERM false] }
        else deleteGroupLoop svc rest { e with calls := c1 }

/-- The map `e.Groups[groupName].Machines`; the zero `Group` of an absent
name has a nil map, over which `range` does nothing. -/
def machinesOf (e : Executor) (groupName : String) : GoMap Machine :=
  match e.Groups.get? groupName with
  | none => []
  | some g => g.Machines

/-- Go: `func (e *Executor) deleteGroup(groupName string)`. -/
def deleteGroup (svc : Service) (e : Executor) (groupName : String) : Except Abort Executor :=
  match deleteGroupLoop svc (machinesOf e groupName) e with
  | .error a => .error a
  | .ok e1 => .ok { e1 with Groups := e1.Groups.delete groupName }

/-- Lines 108 to 132 of `Executor.run`: the teardown of the exited task. -/
def teardown (svc : Service) (e : Executor) (ev : TaskExitCode) : Except Abort Executor :=
  match e.Tasks.get? ev.TaskRemote with
  | none => .error .nilPanic
  | some task =>
    let c1 := e.calls ++ [Call.kill task SIGTERM true]
    match svc.kill e.calls task SIGTERM true with
    | .error err =>
      if !err.IsFailedPrecondition && !err.IsNotFound then .error .fatal
      else teardownAfterKill c1 task
    | .ok _ => teardownAfterKill c1 task
where
  /-- Lines 113 to 132: what follows the kill. -/
  teardownAfterKill (c1 : List Call) (task : Task) : Except Abort Executor :=
    match svc.deleteTask c1 task with
    | .error _ => .error .fatal
    | .ok _ =>
      let c2 := c1 ++ [Call.deleteTask task]
      match svc.wait c2 task with
      | .error _ => .error .fatal
      | .ok _ =>
        let c3 := c2 ++ [Call.wait task, Call.recvExit task]
        match svc.loadContainer c3 ev.TaskGUID with
        | .error _ => .error .fatal
        | .ok container =>
          let c4 := c3 ++ [Call.loadContainer ev.TaskGUID]
          match svc.deleteContainer c4 container true with
          | .error _ =>
            .ok { e with
                  calls := c4 ++ [Call.deleteContainer container true]
                  log := e.log ++ [LogLine.containerDeleteFailed ev.TaskGUID ev.TaskRemote] }
          | .ok _ => .ok { e with calls := c4 ++ [Call.deleteContainer container true] }

/-- Go: `e.Groups[name].Machines[remote]`, the zero `Machine` when absent. -/
def restartMachine (e : Executor) (ev : TaskExitCode) : Machine :=
  match (machinesOf e ev.GroupName).get? ev.TaskRemote with
  | none => Machine.zero
  | some m => m

/-- The `taskExitCode` branch of `Executor.run`: the log line of line 106, the
teardown, then lines 134 to 136. -/
def taskExited (svc : Service) (e : Executor) (ev : TaskExitCode) : Except Abort Executor :=
  match teardown svc { e with log := e.log ++ [LogLine.exited ev] } ev with
  | .error a => .error a
  | .ok e1 =>
    match e1.Groups.get? ev.GroupName with
    | some _ => createTask svc e1 ev.GroupName (restartMachine e1 ev)
    | none => .ok e1

/-- One message received by the `select` of `Executor.run`. -/
inductive Event
  | newGroup (group : Group)
  | deleteGroup (groupName : String)
  | taskExit (ev : TaskExitCode)
  deriving DecidableEq, Repr

/-- One iteration of the loop of `Executor.run`. -/
def step (svc : Service) (e : Executor) : Event → Except Abort Executor
  | .newGroup g => createGroup svc e g
  | .deleteGroup n => deleteGroup svc e n
  | .taskExit ev => taskExited svc e ev

/-- Several iterations of the loop, one per event, stopping at an abort. -/
def runEvents (svc : Service) : Executor → List Event → Except Abort Executor
  | e, [] => .ok e
  | e, ev :: rest =>
    match step svc e ev with
    | .error a => .error a
    | .ok e1 => runEvents svc e1 rest

/-! ## Observations used in the statements -/

/-- Number of Create-Instance performed: the `runTask` calls in a list of calls. -/
def createCount : List Call → Nat
  | [] => 0
  | Call.runTask _ _ :: cs => createCount cs + 1
  | _ :: cs => createCount cs

/-- The signals sent, in order: the target, the signal and the kill-all
option of every `Kill` call. -/
def signalsSent : List Call → List (Task × Signal × Bool)
  | [] => []
  | Call.kill t sig all :: cs => (t, sig, all) :: signalsSent cs
  | _ :: cs => signalsSent cs

/-- Whether some `Kill` call targets a task after a `Delete` call on that task. -/
def killedAfterDelete : List Call → Bool
  | [] => false
  | Call.deleteTask t :: cs =>
    (signalsSent cs).any (fun s => s.1 = t) || killedAfterDelete cs
  | _ :: cs => killedAfterDelete cs

/-- The tasks deleted, in order: the target of every task `Delete` call. -/
def deletedTasks : List Call → List Task
  | [] => []
  | Call.deleteTask t :: cs => t :: deletedTasks cs
  | _ :: cs => deletedTasks cs

/-- The descriptors passed to Create-Instance: the machine of every `runTask` call. -/
def descriptorsCreated : List Call → List Machine
  | [] => []
  | Call.runTask m _ :: cs => m :: descriptorsCreated cs
  | _ :: cs => descriptorsCreated cs

/-- The six calls of the teardown of task `t` for the event `ev`, with `c`
the container that `LoadContainer` returned. -/
def teardownCalls (t : Task) (ev : TaskExitCode) (c : ContainerHandle) : List Call :=
  [Call.kill t SIGTERM true, Call.deleteTask t, Call.wait t, Call.recvExit t,
   Call.loadContainer ev.TaskGUID, Call.deleteContainer c true]

/-- The keys of `Tasks` in `after` that are not keys of `Tasks` in `before`. -/
def newTaskKeys (before after : Executor) : List String :=
  after.Tasks.keys.filter (fun k => decide (k ∉ before.Tasks.keys))

/-- The image references of the descriptors of a group, in entry order. -/
def Group.remotes (g : Group) : List String :=
  g.Machines.values.map Machine.Remote

/-- The task handles bound in `Tasks` at the given keys, in order. -/
def handlesAt (tasks : GoMap Task) (keys : List String) : List Task :=
  keys.filterMap (fun k => tasks.get? k)

/-- An executor state without its log. -/
def Executor.withoutLog (e : Executor) : Executor := { e with log := [] }

/-- Whether a run of the supervisor ended early (`log.Fatalln` or a panic). -/
def aborted {α : Type} : Except Abort α → Bool
  | .error _ => true
  | .ok _ => false

/-- The outcome of a run without the log of the final state. -/
def outcomeWithoutLog : Except Abort Executor → Except Abort Executor
  | .error a => .error a
  | .ok e => .ok e.withoutLog

/-- Every exit watcher started so far watches a task whose execution key is
bound in `Tasks`: the termination events the supervisor can receive are the
events of these watchers. -/
def Executor.WatchersBound (e : Executor) : Prop :=
  ∀ w ∈ e.watchers, w.TaskRemote ∈ e.Tasks.keys

/-- Every call of `createTask` succeeds. -/
def Service.CreateOk (svc : Service) : Prop :=
  (∀ h m n, ∃ t, svc.runTask h m n = .ok t) ∧
  (∀ h t, svc.wait h t = .ok ()) ∧
  (∀ h t, svc.start h t = .ok ())

/-- Every call of the teardown whose failure is fatal succeeds. -/
def Service.TeardownOk (svc : Service) : Prop :=
  (∀ h t, svc.kill h t SIGTERM true = .ok ()) ∧
  (∀ h t, svc.deleteTask h t = .ok ()) ∧
  (∀ h t, svc.wait h t = .ok ()) ∧
  (∀ h id, ∃ c, svc.loadContainer h id = .ok c)

/-- Every call of `deleteGroup` succeeds. -/
def Service.DeleteOk (svc : Service) : Prop :=
  (∀ h t, ∃ s, svc.status h t = .ok s) ∧
  (∀ h t, svc.kill h t SIGTERM false = .ok ())

/-! ## Concrete inputs -/

/-- A service on which every call succeeds: a new task or container handle is
the number of calls issued so far, and every task is reported Running. -/
def svcOk : Service :=
  { runTask := fun h _ _ => .ok h.length
    wait := fun _ _ => .ok ()
    start := fun _ _ => .ok ()
    status := fun _ _ => .ok ProcessStatus.Running
    kill := fun _ _ _ _ => .ok ()
    deleteTask := fun _ _ => .ok ()
    loadContainer := fun h _ => .ok h.length
    deleteContainer := fun _ _ _ => .ok () }

/-- A service on which the kill of the teardown fails with a not-found error
and the container delete fails, every other call succeeding as on `svcOk`. -/
def svcFlaky : Service :=
  { svcOk with
    kill := fun _ _ _ all =>
      if all then .error { IsNotFound := true, IsFailedPrecondition := false } else .ok ()
    deleteContainer := fun _ _ _ =>
      .error { IsNotFound := false, IsFailedPrecondition := false } }

/-- A service as `svcOk` except that only task 0 is reported Running; every
other task is reported Stopped. -/
def svcMixed : Service :=
  { svcOk with
    status := fun _ t =>
      .ok (if t = 0 then ProcessStatus.Running else ProcessStatus.Stopped) }

/-- Group "workers" with two instances, of images "X" and "Y". -/
def groupWorkers : Group :=
  { Name := "workers"
    Machines := [("X", { GUID := "w0", Remote := "X" }), ("Y", { GUID := "w1", Remote := "Y" })] }

/-- Group "other" with one instance of image "X", the image of an instance of "workers". -/
def groupOther : Group :=
  { Name := "other", Machines := [("X", { GUID := "o0", Remote := "X" })] }

/-- Group "workers" registered again, now with one instance of image "Z". -/
def groupWorkersAgain : Group :=
  { Name := "workers", Machines := [("Z", { GUID := "w2", Remote := "Z" })] }

/-- Group "workers" registered again with a new descriptor for the image "X". -/
def groupWorkersRenewed : Group :=
  { Name := "workers", Machines := [("X", { GUID := "w9", Remote := "X" })] }

/-- The state reached from the initial one by creating "workers". -/
def stateWorkers : Executor :=
  { Namespace := "ns"
    Groups := [("workers", groupWorkers)]
    Tasks := [("X", 0), ("Y", 3)]
    calls := [Call.runTask { GUID := "w0", Remote := "X" } "discovery-workers", Call.wait 0,
      Call.start 0, Call.runTask { GUID := "w1", Remote := "Y" } "discovery-workers",
      Call.wait 3, Call.start 3]
    watchers := [{ task := 0, GroupName := "workers", TaskGUID := "w0", TaskRemote := "X" },
      { task := 3, GroupName := "workers", TaskGUID := "w1", TaskRemote := "Y" }]
    log := [] }

/-- The termination event of the instance of image "Y" of "workers", exit code 1. -/
def exitY : TaskExitCode :=
  { GroupName := "workers", TaskGUID := "w1", TaskRemote := "Y", ExitCode := 1 }

/-- The termination event of the instance of image "X" of "workers", exit code 1. -/
def exitX : TaskExitCode :=
  { GroupName := "workers", TaskGUID := "w0", TaskRemote := "X", ExitCode := 1 }

/-! ## Lemmas: deployer -/

theorem digitChar_val (k : Nat) (h : k < 10) : digitVal (Nat.digitChar k) = k := by
  interval_cases k <;> rfl

theorem digitChar_ne_dot (k : Nat) (h : k < 10) : Nat.digitChar k ≠ '.' := by
  interval_cases k <;> decide

theorem toDigitsCore_spec (fuel : Nat) : ∀ (n : Nat) (ds : List Char), n < fuel →
    ∃ pre : List Char, Nat.toDigitsCore 10 fuel n ds = pre ++ ds ∧
      '.' ∉ pre ∧ decodeDigits pre = n := by
  induction fuel with
  | zero => intro n ds h; omega
  | succ fuel ih =>
    intro n ds h
    have hd : n % 10 < 10 := Nat.mod_lt _ (by decide)
    by_cases h0 : n / 10 = 0
    · refine ⟨[Nat.digitChar (n % 10)], ?_, ?_, ?_⟩
      · simp [Nat.toDigitsCore, h0]
      · simpa using (digitChar_ne_dot _ hd).symm
      · simp [decodeDigits, digitChar_val _ hd]
        omega
    · have hlt : n / 10 < fuel := by omega
      obtain ⟨pre, hpre, hdot, hval⟩ := ih (n / 10) (Nat.digitChar (n % 10) :: ds) hlt
      refine ⟨pre ++ [Nat.digitChar (n % 10)], ?_, ?_, ?_⟩
      · simp [Nat.toDigitsCore, h0, hpre]
      · simp only [List.mem_append, List.mem_singleton, not_or]
        exact ⟨hdot, (digitChar_ne_dot _ hd).symm⟩
      · unfold decodeDigits at hval ⊢
        rw [List.foldl_append, hval]
        simp [digitChar_val _ hd]
        omega

theorem repr_data_spec (n : Nat) :
    '.' ∉ (Nat.repr n).data ∧ decodeDigits (Nat.repr n).data = n := by
  obtain ⟨pre, hpre, hdot, hval⟩ := toDigitsCore_spec (n + 1) n [] (Nat.lt_succ_self n)
  have : (Nat.repr n).data = pre := by
    simp [Nat.repr, Nat.toDigits, hpre, List.asString]
  rw [this]
  exact ⟨hdot, hval⟩

theorem repr_injective (a b : Nat) (h : Nat.repr a = Nat.repr b) : a = b := by
  have ha := (repr_data_spec a).2
  have hb := (repr_data_spec b).2
  rw [h] at ha
  omega

/-- Splitting a list at its last occurrence of `a` is unique. -/
theorem split_last_unique {α : Type} {a : α} {x₁ x₂ z₁ z₂ : List α}
    (h₁ : a ∉ z₁) (h₂ : a ∉ z₂) (h : x₁ ++ a :: z₁ = x₂ ++ a :: z₂) :
    x₁ = x₂ ∧ z₁ = z₂ := by
  rw [List.append_eq_append_iff] at h
  rcases h with ⟨c, hx, hz⟩ | ⟨c, hx, hz⟩
  · cases c with
    | nil => simp at hz; simp [hx, hz]
    | cons d c =>
      simp at hz
      exact absurd (by rw [hz.2]; simp) h₁
  · cases c with
    | nil => simp at hz; simp [hx, hz]
    | cons d c =>
      simp at hz
      exact absurd (by rw [hz.2]; simp) h₂

theorem ContainerID_data (j : Job) (i : Nat) :
    (j.ContainerID i).data = j.Name.data ++ '.' :: (Nat.repr i).data := by
  simp [Job.ContainerID, String.data_append]

theorem ContainerID_inj (j₁ j₂ : Job) (i₁ i₂ : Nat)
    (h : j₁.ContainerID i₁ = j₂.ContainerID i₂) : j₁.Name = j₂.Name ∧ i₁ = i₂ := by
  have hd := congrArg String.data h
  rw [ContainerID_data, ContainerID_data] at hd
  obtain ⟨hn, hr⟩ := split_last_unique (repr_data_spec i₁).1 (repr_data_spec i₂).1 hd
  exact ⟨String.ext hn, repr_injective _ _ (String.ext hr)⟩

theorem containersLoop_eq (j : Job) (ns : String) (fuel : Nat) :
    ∀ (i : Nat) (acc : List Container), i + fuel = j.Instances →
      Job.containersLoop j ns fuel i acc =
        acc ++ (List.range' i fuel).map
          (fun k => { ID := j.ContainerID k, Remote := j.Remote, Namespace := ns }) := by
  induction fuel with
  | zero => intro i acc _; simp [Job.containersLoop]
  | succ fuel ih =>
    intro i acc h
    have hi : i < j.Instances := by omega
    simp only [Job.containersLoop, hi, if_true]
    rw [ih (i + 1) _ (by omega)]
    simp [List.range']

theorem Containers_eq_map (j : Job) (ns : String) :
    j.Containers ns = (List.range j.Instances).map
      (fun k => { ID := j.ContainerID k, Remote := j.Remote, Namespace := ns }) := by
  unfold Job.Containers
  rw [containersLoop_eq j ns j.Instances 0 [] (by omega)]
  simp [List.range_eq_range']


/-! ## Lemmas: Go maps -/

theorem GoMap.get?_set_self {V : Type} (m : GoMap V) (x : String) (v : V) :
    (m.set x v).get? x = some v := by
  induction m with
  | nil => simp [GoMap.set, GoMap.get?]
  | cons p m ih =>
    obtain ⟨k, w⟩ := p
    by_cases h : k = x
    · simp [GoMap.set, GoMap.get?, h]
    · simp [GoMap.set, GoMap.get?, h, ih]

theorem GoMap.get?_set_ne {V : Type} (m : GoMap V) (x y : String) (v : V) (hxy : x ≠ y) :
    (m.set x v).get? y = m.get? y := by
  induction m with
  | nil => simp [GoMap.set, GoMap.get?, hxy]
  | cons p m ih =>
    obtain ⟨k, w⟩ := p
    by_cases h : k = x
    · subst h
      simp [GoMap.set, GoMap.get?, hxy]
    · by_cases h2 : k = y
      · subst h2
        simp [GoMap.set, GoMap.get?, h]
      · simp [GoMap.set, GoMap.get?, h, h2, ih]

theorem GoMap.get?_eq_none_iff {V : Type} (m : GoMap V) (x : String) :
    m.get? x = none ↔ x ∉ m.keys := by
  induction m with
  | nil => simp [GoMap.get?, GoMap.keys]
  | cons p m ih =>
    obtain ⟨k, w⟩ := p
    by_cases h : k = x
    · simp [GoMap.get?, GoMap.keys, h]
    · have h2 : ¬ x = k := fun e => h e.symm
      simp only [GoMap.keys] at ih
      simp [GoMap.get?, GoMap.keys, h, h2, ih]

theorem GoMap.mem_keys_iff {V : Type} (m : GoMap V) (x : String) :
    x ∈ m.keys ↔ ∃ v, m.get? x = some v := by
  have h := GoMap.get?_eq_none_iff m x
  cases hg : m.get? x with
  | none => simpa [hg] using h
  | some v =>
    rw [hg] at h
    simp only [Option.some.injEq, exists_eq', iff_true]
    by_contra hc
    exact absurd (h.2 hc) (by simp)

theorem GoMap.keys_set_of_mem {V : Type} (m : GoMap V) (x : String) (v : V)
    (hx : x ∈ m.keys) : (m.set x v).keys = m.keys := by
  induction m with
  | nil => simp [GoMap.keys] at hx
  | cons p m ih =>
    obtain ⟨k, w⟩ := p
    by_cases h : k = x
    · simp [GoMap.set, GoMap.keys, h]
    · have hx2 : x ∈ GoMap.keys m := by
        simp only [GoMap.keys, List.map_cons, List.mem_cons] at hx
        rcases hx with hx | hx
        · exact absurd hx.symm h
        · exact hx
      have := ih hx2
      simp only [GoMap.keys] at this
      simp [GoMap.set, GoMap.keys, h, this]

theorem GoMap.keys_set_of_not_mem {V : Type} (m : GoMap V) (x : String) (v : V)
    (hx : x ∉ m.keys) : (m.set x v).keys = m.keys ++ [x] := by
  induction m with
  | nil => simp [GoMap.set, GoMap.keys]
  | cons p m ih =>
    obtain ⟨k, w⟩ := p
    simp only [GoMap.keys, List.map_cons, List.mem_cons, not_or] at hx
    have h : ¬ k = x := fun e => hx.1 e.symm
    have := ih hx.2
    simp only [GoMap.keys] at this
    simp [GoMap.set, GoMap.keys, h, this]

theorem GoMap.mem_keys_set {V : Type} (m : GoMap V) (x y : String) (v : V) :
    y ∈ (m.set x v).keys ↔ y ∈ m.keys ∨ y = x := by
  by_cases hx : x ∈ m.keys
  · rw [GoMap.keys_set_of_mem m x v hx]
    constructor
    · intro h; exact Or.inl h
    · rintro (h | h)
      · exact h
      · rw [h]; exact hx
  · rw [GoMap.keys_set_of_not_mem m x v hx]
    simp

theorem GoMap.get?_delete_self {V : Type} (m : GoMap V) (x : String) :
    (m.delete x).get? x = none := by
  induction m with
  | nil => simp [GoMap.delete, GoMap.get?]
  | cons p m ih =>
    obtain ⟨k, w⟩ := p
    by_cases h : k = x
    · simp [GoMap.delete, h, ih]
    · simp [GoMap.delete, GoMap.get?, h, ih]

theorem GoMap.get?_delete_ne {V : Type} (m : GoMap V) (x y : String) (hxy : x ≠ y) :
    (m.delete x).get? y = m.get? y := by
  induction m with
  | nil => simp [GoMap.delete, GoMap.get?]
  | cons p m ih =>
    obtain ⟨k, w⟩ := p
    by_cases h : k = x
    · subst h
      simp [GoMap.delete, GoMap.get?, hxy, ih]
    · by_cases h2 : k = y
      · subst h2
        simp [GoMap.delete, GoMap.get?, h]
      · simp [GoMap.delete, GoMap.get?, h, h2, ih]

theorem GoMap.mem_values_of_get? {V : Type} (ms : GoMap V) (k : String) (v : V)
    (h : ms.get? k = some v) : v ∈ ms.values := by
  induction ms with
  | nil => simp [GoMap.get?] at h
  | cons p ms ih =>
    obtain ⟨k0, v0⟩ := p
    by_cases hk : k0 = k
    · simp [GoMap.get?, hk] at h
      simp [GoMap.values, h]
    · simp only [GoMap.get?, hk, if_false] at h
      have := ih h
      simp only [GoMap.values] at this
      simp [GoMap.values, this]

/-! ## Lemmas: observations -/

theorem createCount_append (a b : List Call) :
    createCount (a ++ b) = createCount a + createCount b := by
  induction a with
  | nil => simp [createCount]
  | cons c a ih =>
    cases c <;> simp [createCount, ih]
    omega

theorem signalsSent_append (a b : List Call) :
    signalsSent (a ++ b) = signalsSent a ++ signalsSent b := by
  induction a with
  | nil => simp [signalsSent]
  | cons c a ih => cases c <;> simp [signalsSent, ih]

/-! ## Lemmas: createTask and createGroup -/

theorem createTask_ok (svc : Service) (hsvc : svc.CreateOk) (e : Executor) (g : String)
    (m : Machine) :
    ∃ t, svc.runTask e.calls m ("discovery-" ++ g) = .ok t ∧
      createTask svc e g m = .ok
        { e with
          calls := e.calls ++ [Call.runTask m ("discovery-" ++ g), Call.wait t, Call.start t]
          Tasks := e.Tasks.set m.Remote t
          watchers := e.watchers ++
            [{ task := t, GroupName := g, TaskGUID := m.GUID, TaskRemote := m.Remote }] } := by
  obtain ⟨hr, hw, hs⟩ := hsvc
  obtain ⟨t, ht⟩ := hr e.calls m ("discovery-" ++ g)
  refine ⟨t, ht, ?_⟩
  simp [createTask, ht, hw, hs]

theorem createTasks_ok (svc : Service) (hsvc : svc.CreateOk) (g : String) :
    ∀ (ms : GoMap Machine) (e : Executor),
      ∃ e', createTasks svc g ms e = .ok e' ∧ e'.Groups = e.Groups ∧ e'.log = e.log ∧
        (∀ k, k ∈ e'.Tasks.keys ↔ k ∈ e.Tasks.keys ∨ k ∈ ms.values.map Machine.Remote) ∧
        ((ms.values.map Machine.Remote).Nodup →
          (∀ r ∈ ms.values.map Machine.Remote, r ∉ e.Tasks.keys) →
          e'.Tasks.keys = e.Tasks.keys ++ ms.values.map Machine.Remote) ∧
        createCount e'.calls = createCount e.calls + ms.length := by
  intro ms
  induction ms with
  | nil =>
    intro e
    exact ⟨e, rfl, rfl, rfl, by simp [GoMap.values], by simp [GoMap.values], by simp⟩
  | cons p ms ih =>
    intro e
    obtain ⟨k0, m⟩ := p
    obtain ⟨t, _, hct⟩ := createTask_ok svc hsvc e g m
    obtain ⟨e', he', hG, hL, hK, hN, hC⟩ := ih
      { e with
        calls := e.calls ++ [Call.runTask m ("discovery-" ++ g), Call.wait t, Call.start t]
        Tasks := e.Tasks.set m.Remote t
        watchers := e.watchers ++
          [{ task := t, GroupName := g, TaskGUID := m.GUID, TaskRemote := m.Remote }] }
    refine ⟨e', ?_, hG, hL, ?_, ?_, ?_⟩
    · simp [createTasks, hct, he']
    · intro k
      rw [hK k]
      simp only [GoMap.mem_keys_set, GoMap.values, List.map_cons, List.mem_cons]
      tauto
    · intro hnd hfresh
      simp only [GoMap.values, List.map_cons, List.nodup_cons] at hnd
      have hm : m.Remote ∉ e.Tasks.keys := hfresh m.Remote (by simp [GoMap.values])
      have hkeys := GoMap.keys_set_of_not_mem e.Tasks m.Remote t hm
      have := hN hnd.2 (by
        intro r hr
        simp only [hkeys, List.mem_append, List.mem_singleton, not_or]
        refine ⟨hfresh r (by simp only [GoMap.values, List.map_cons, List.mem_cons]; exact Or.inr hr), ?_⟩
        intro h
        exact hnd.1 (h ▸ hr))
      rw [this]
      simp [hkeys, GoMap.values]
    · rw [hC]
      simp [createCount_append, createCount]
      omega

/-! ## Lemmas: the task-exited branch -/

theorem descriptorsCreated_append (a b : List Call) :
    descriptorsCreated (a ++ b) = descriptorsCreated a ++ descriptorsCreated b := by
  induction a with
  | nil => simp [descriptorsCreated]
  | cons c a ih => cases c <;> simp [descriptorsCreated, ih]

theorem stateWorkers_reachable :
    createGroup svcOk (NewExecutor "ns") groupWorkers = .ok stateWorkers := by
  rfl

theorem teardown_ok (svc : Service) (hsvc : svc.TeardownOk) (e : Executor) (ev : TaskExitCode)
    (t : Task) (ht : e.Tasks.get? ev.TaskRemote = some t) :
    ∃ e1 c, teardown svc e ev = .ok e1 ∧
      svc.loadContainer
        (e.calls ++ [Call.kill t SIGTERM true, Call.deleteTask t, Call.wait t, Call.recvExit t])
        ev.TaskGUID = .ok c ∧
      e1.calls = e.calls ++ teardownCalls t ev c ∧
      e1.Groups = e.Groups ∧ e1.Tasks = e.Tasks ∧ e1.watchers = e.watchers := by
  obtain ⟨hk, hd, hw, hl⟩ := hsvc
  obtain ⟨c, hc⟩ := hl
    (e.calls ++ [Call.kill t SIGTERM true, Call.deleteTask t, Call.wait t, Call.recvExit t])
    ev.TaskGUID
  cases hdc : svc.deleteContainer
      (e.calls ++ [Call.kill t SIGTERM true, Call.deleteTask t, Call.wait t, Call.recvExit t,
        Call.loadContainer ev.TaskGUID]) c true with
  | error err =>
    refine ⟨{ e with
              calls := e.calls ++ teardownCalls t ev c
              log := e.log ++ [LogLine.containerDeleteFailed ev.TaskGUID ev.TaskRemote] },
      c, ?_, hc, rfl, rfl, rfl, rfl⟩
    simp [teardown, teardown.teardownAfterKill, ht, hk, hd, hw, hc, hdc, teardownCalls]
  | ok u =>
    refine ⟨{ e with calls := e.calls ++ teardownCalls t ev c }, c, ?_, hc, rfl, rfl, rfl, rfl⟩
    simp [teardown, teardown.teardownAfterKill, ht, hk, hd, hw, hc, hdc, teardownCalls]

theorem svcOk_createOk : svcOk.CreateOk :=
  ⟨fun h _ _ => ⟨h.length, rfl⟩, fun _ _ => rfl, fun _ _ => rfl⟩

theorem svcOk_teardownOk : svcOk.TeardownOk :=
  ⟨fun _ _ => rfl, fun _ _ => rfl, fun _ _ => rfl, fun h _ => ⟨h.length, rfl⟩⟩

theorem svcOk_deleteOk : svcOk.DeleteOk :=
  ⟨fun _ _ => ⟨ProcessStatus.Running, rfl⟩, fun _ _ => rfl⟩

theorem createCount_teardownCalls (t : Task) (ev : TaskExitCode) (c : ContainerHandle) :
    createCount (teardownCalls t ev c) = 0 := by
  simp [teardownCalls, createCount]

theorem taskExited_absent (svc : Service) (hsvc : svc.TeardownOk) (e : Executor)
    (ev : TaskExitCode) (t : Task) (ht : e.Tasks.get? ev.TaskRemote = some t)
    (hG : e.Groups.get? ev.GroupName = none) :
    ∃ e' c, taskExited svc e ev = .ok e' ∧
      e'.calls = e.calls ++ teardownCalls t ev c ∧
      e'.Groups = e.Groups ∧ e'.Tasks = e.Tasks ∧ e'.watchers = e.watchers := by
  obtain ⟨e1, c, h1, _, hcalls, hgr, htk, hwt⟩ :=
    teardown_ok svc hsvc { e with log := e.log ++ [LogLine.exited ev] } ev t ht
  refine ⟨e1, c, ?_, hcalls, hgr, htk, hwt⟩
  have : e1.Groups.get? ev.GroupName = none := by rw [hgr]; exact hG
  simp [taskExited, h1, this]

theorem taskExited_present (svc : Service) (hc : svc.CreateOk) (hsvc : svc.TeardownOk)
    (e : Executor) (ev : TaskExitCode) (t : Task) (G : Group)
    (ht : e.Tasks.get? ev.TaskRemote = some t)
    (hG : e.Groups.get? ev.GroupName = some G) :
    ∃ e' c t', taskExited svc e ev = .ok e' ∧
      svc.runTask (e.calls ++ teardownCalls t ev c) (restartMachine e ev)
        ("discovery-" ++ ev.GroupName) = .ok t' ∧
      e'.calls = e.calls ++ teardownCalls t ev c ++
        [Call.runTask (restartMachine e ev) ("discovery-" ++ ev.GroupName), Call.wait t',
          Call.start t'] ∧
      e'.Groups = e.Groups ∧ e'.Tasks = e.Tasks.set (restartMachine e ev).Remote t' ∧
      e'.watchers = e.watchers ++
        [{ task := t', GroupName := ev.GroupName, TaskGUID := (restartMachine e ev).GUID,
           TaskRemote := (restartMachine e ev).Remote }] := by
  obtain ⟨e1, c, h1, _, hcalls, hgr, htk, hwt⟩ :=
    teardown_ok svc hsvc { e with log := e.log ++ [LogLine.exited ev] } ev t ht
  have hg1 : e1.Groups.get? ev.GroupName = some G := by rw [hgr]; exact hG
  have hrm : restartMachine e1 ev = restartMachine e ev := by
    simp only [restartMachine, machinesOf, hgr]
  obtain ⟨t', hrun, hct⟩ := createTask_ok svc hc e1 ev.GroupName (restartMachine e1 ev)
  rw [hrm, hcalls] at hrun
  have hte : taskExited svc e ev = createTask svc e1 ev.GroupName (restartMachine e1 ev) := by
    simp only [taskExited, h1, hg1]
  rw [hct] at hte
  refine ⟨_, c, t', hte, hrun, ?_, ?_, ?_, ?_⟩
  · simp [hcalls, hrm]
  · exact hgr
  · simp [htk, hrm]
  · simp [hwt, hrm]

theorem createTask_withoutLog (svc : Service) (e1 e2 : Executor) (g : String) (m : Machine)
    (h : e1.withoutLog = e2.withoutLog) :
    outcomeWithoutLog (createTask svc e1 g m) = outcomeWithoutLog (createTask svc e2 g m) := by
  obtain ⟨n1, g1, t1, c1, w1, l1⟩ := e1
  obtain ⟨n2, g2, t2, c2, w2, l2⟩ := e2
  simp only [Executor.withoutLog, Executor.mk.injEq, and_true] at h
  obtain ⟨rfl, rfl, rfl, rfl, rfl⟩ := h
  simp only [createTask]
  cases svc.runTask c1 m ("discovery-" ++ g) with
  | error err => rfl
  | ok t =>
    simp only
    cases svc.wait (c1 ++ [Call.runTask m ("discovery-" ++ g)]) t with
    | error err => rfl
    | ok u =>
      simp only
      cases svc.start (c1 ++ [Call.runTask m ("discovery-" ++ g)] ++ [Call.wait t]) t with
      | error err => rfl
      | ok u => rfl

theorem teardown_withoutLog (svc : Service)
    (dc : List Call → ContainerHandle → Bool → Except Err Unit) (e : Executor)
    (ev : TaskExitCode) :
    outcomeWithoutLog (teardown { svc with deleteContainer := dc } e ev) =
      outcomeWithoutLog (teardown svc e ev) := by
  have key : ∀ (c1 : List Call) (t : Task),
      outcomeWithoutLog
          (teardown.teardownAfterKill { svc with deleteContainer := dc } e ev c1 t) =
        outcomeWithoutLog (teardown.teardownAfterKill svc e ev c1 t) := by
    intro c1 t
    simp only [teardown.teardownAfterKill]
    cases svc.deleteTask c1 t with
    | error err => rfl
    | ok u =>
      simp only
      cases svc.wait (c1 ++ [Call.deleteTask t]) t with
      | error err => rfl
      | ok u =>
        simp only
        cases svc.loadContainer (c1 ++ [Call.deleteTask t] ++ [Call.wait t, Call.recvExit t])
            ev.TaskGUID with
        | error err => rfl
        | ok c =>
          simp only
          cases dc (c1 ++ [Call.deleteTask t] ++ [Call.wait t, Call.recvExit t] ++
              [Call.loadContainer ev.TaskGUID]) c true <;>
            cases svc.deleteContainer (c1 ++ [Call.deleteTask t] ++
              [Call.wait t, Call.recvExit t] ++ [Call.loadContainer ev.TaskGUID]) c true <;>
            rfl
  simp only [teardown]
  cases e.Tasks.get? ev.TaskRemote with
  | none => rfl
  | some t =>
    simp only
    cases svc.kill e.calls t SIGTERM true with
    | error err =>
      simp only
      split
      · rfl
      · exact key _ _
    | ok u => exact key _ _

theorem teardown_frame (svc : Service) (e e1 : Executor) (ev : TaskExitCode)
    (h : teardown svc e ev = .ok e1) :
    e1.Groups = e.Groups ∧ e1.Tasks = e.Tasks ∧ e1.watchers = e.watchers ∧
      e1.Namespace = e.Namespace := by
  simp only [teardown] at h
  have key : ∀ (c1 : List Call) (t : Task),
      teardown.teardownAfterKill svc e ev c1 t = .ok e1 →
      e1.Groups = e.Groups ∧ e1.Tasks = e.Tasks ∧ e1.watchers = e.watchers ∧
        e1.Namespace = e.Namespace := by
    intro c1 t hk
    simp only [teardown.teardownAfterKill] at hk
    split at hk
    · cases hk
    · split at hk
      · cases hk
      · split at hk
        · cases hk
        · split at hk <;> (cases hk; exact ⟨rfl, rfl, rfl, rfl⟩)
  split at h
  · cases h
  · split at h
    · split at h
      · cases h
      · exact key _ _ h
    · exact key _ _ h

theorem taskExited_withoutLog (svc : Service)
    (dc : List Call → ContainerHandle → Bool → Except Err Unit) (e : Executor)
    (ev : TaskExitCode) :
    outcomeWithoutLog (taskExited { svc with deleteContainer := dc } e ev) =
      outcomeWithoutLog (taskExited svc e ev) := by
  have h := teardown_withoutLog svc dc { e with log := e.log ++ [LogLine.exited ev] } ev
  simp only [taskExited]
  cases h1 : teardown { svc with deleteContainer := dc }
      { e with log := e.log ++ [LogLine.exited ev] } ev with
  | error a =>
    cases h2 : teardown svc { e with log := e.log ++ [LogLine.exited ev] } ev with
    | error b =>
      rw [h1, h2] at h
      simpa [outcomeWithoutLog] using h
    | ok e2 =>
      rw [h1, h2] at h
      simp [outcomeWithoutLog] at h
  | ok e1 =>
    cases h2 : teardown svc { e with log := e.log ++ [LogLine.exited ev] } ev with
    | error b =>
      rw [h1, h2] at h
      simp [outcomeWithoutLog] at h
    | ok e2 =>
      rw [h1, h2] at h
      simp only [outcomeWithoutLog, Except.ok.injEq] at h
      have hg : e1.Groups = e2.Groups := by
        have := congrArg Executor.Groups h
        simpa [Executor.withoutLog] using this
      have hrm : restartMachine e1 ev = restartMachine e2 ev := by
        simp only [restartMachine, machinesOf, hg]
      simp only [hg, hrm]
      cases e2.Groups.get? ev.GroupName with
      | none => simp only [outcomeWithoutLog, h]
      | some G =>
        simp only
        exact createTask_withoutLog svc e1 e2 ev.GroupName (restartMachine e2 ev) h

/-- What a teardown that returns has done, for any service. -/
theorem teardown_result (svc : Service) (e e1 : Executor) (ev : TaskExitCode)
    (h : teardown svc e ev = .ok e1) :
    ∃ t c, e.Tasks.get? ev.TaskRemote = some t ∧
      svc.loadContainer
        (e.calls ++ [Call.kill t SIGTERM true, Call.deleteTask t, Call.wait t, Call.recvExit t])
        ev.TaskGUID = .ok c ∧
      e1.calls = e.calls ++ teardownCalls t ev c := by
  simp only [teardown] at h
  have key : ∀ (t : Task),
      teardown.teardownAfterKill svc e ev (e.calls ++ [Call.kill t SIGTERM true]) t = .ok e1 →
      ∃ c, svc.loadContainer
          (e.calls ++ [Call.kill t SIGTERM true, Call.deleteTask t, Call.wait t,
            Call.recvExit t]) ev.TaskGUID = .ok c ∧
        e1.calls = e.calls ++ teardownCalls t ev c := by
    intro t hk
    simp only [teardown.teardownAfterKill, List.append_assoc, List.singleton_append,
      List.cons_append, List.nil_append] at hk
    split at hk
    · cases hk
    · split at hk
      · cases hk
      · split at hk
        · cases hk
        · rename_i c hc
          refine ⟨c, hc, ?_⟩
          split at hk <;> (cases hk; simp [teardownCalls])
  split at h
  · cases h
  · rename_i t ht
    refine ⟨t, ?_⟩
    split at h
    · split at h
      · cases h
      · obtain ⟨c, h1, h2⟩ := key t h
        exact ⟨c, ht, h1, h2⟩
    · obtain ⟨c, h1, h2⟩ := key t h
      exact ⟨c, ht, h1, h2⟩

/-- What a `createTask` that returns has done, for any service. -/
theorem createTask_result (svc : Service) (e e' : Executor) (g : String) (m : Machine)
    (h : createTask svc e g m = .ok e') :
    ∃ t, svc.runTask e.calls m ("discovery-" ++ g) = .ok t ∧
      e'.calls = e.calls ++ [Call.runTask m ("discovery-" ++ g), Call.wait t, Call.start t] := by
  simp only [createTask] at h
  split at h
  · cases h
  · rename_i t ht
    split at h
    · cases h
    · split at h
      · cases h
      · cases h
        exact ⟨t, ht, by simp⟩

/-- The log of the state has no influence on a teardown other than on the log
of its result. -/
theorem teardown_log (svc : Service) (e : Executor) (ev : TaskExitCode) (l : List LogLine) :
    outcomeWithoutLog (teardown svc { e with log := l } ev) =
      outcomeWithoutLog (teardown svc e ev) := by
  have key : ∀ (c1 : List Call) (t : Task),
      outcomeWithoutLog (teardown.teardownAfterKill svc { e with log := l } ev c1 t) =
        outcomeWithoutLog (teardown.teardownAfterKill svc e ev c1 t) := by
    intro c1 t
    simp only [teardown.teardownAfterKill]
    cases svc.deleteTask c1 t with
    | error err => rfl
    | ok u =>
      simp only
      cases svc.wait (c1 ++ [Call.deleteTask t]) t with
      | error err => rfl
      | ok u =>
        simp only
        cases svc.loadContainer (c1 ++ [Call.deleteTask t] ++ [Call.wait t, Call.recvExit t])
            ev.TaskGUID with
        | error err => rfl
        | ok c =>
          simp only
          cases svc.deleteContainer (c1 ++ [Call.deleteTask t] ++
              [Call.wait t, Call.recvExit t] ++ [Call.loadContainer ev.TaskGUID]) c true <;>
            rfl
  simp only [teardown]
  cases e.Tasks.get? ev.TaskRemote with
  | none => rfl
  | some t =>
    simp only
    cases svc.kill e.calls t SIGTERM true with
    | error err =>
      simp only
      split
      · rfl
      · exact key _ _
    | ok u => exact key _ _

/-! ## Lemmas: deleteGroup -/

theorem handlesAt_length (tasks : GoMap Task) (ks : List String)
    (hb : ∀ k ∈ ks, k ∈ tasks.keys) : (handlesAt tasks ks).length = ks.length := by
  induction ks with
  | nil => rfl
  | cons k ks ih =>
    obtain ⟨t, ht⟩ := (GoMap.mem_keys_iff _ _).1 (hb k (List.mem_cons_self _ _))
    have := ih (fun x hx => hb x (List.mem_cons_of_mem _ hx))
    simp only [handlesAt] at this
    simp [handlesAt, List.filterMap_cons, ht, this]

/-- The loop of `deleteGroup` when the status of a task is given by `st`. -/
theorem deleteGroupLoop_assigned (svc : Service) (st : Task → ProcessStatus)
    (hst : ∀ h t, svc.status h t = .ok (st t))
    (hk : ∀ h t, svc.kill h t SIGTERM false = .ok ()) :
    ∀ (ms : GoMap Machine) (e : Executor), (∀ k ∈ ms.keys, k ∈ e.Tasks.keys) →
      ∃ L, deleteGroupLoop svc ms e = .ok { e with calls := e.calls ++ L } ∧
        signalsSent L =
          ((handlesAt e.Tasks ms.keys).filter (fun t => (st t).signalled)).map
            (fun t => (t, SIGTERM, false)) := by
  intro ms
  induction ms with
  | nil =>
    intro e _
    exact ⟨[], by simp [deleteGroupLoop], by simp [signalsSent, handlesAt, GoMap.keys]⟩
  | cons p ms ih =>
    intro e hb
    obtain ⟨k, m⟩ := p
    obtain ⟨t, ht⟩ := (GoMap.mem_keys_iff _ _).1 (hb k (by simp [GoMap.keys]))
    have hb' : ∀ x ∈ GoMap.keys ms, x ∈ e.Tasks.keys := fun x hx =>
      hb x (by simp only [GoMap.keys, List.map_cons, List.mem_cons]; exact Or.inr hx)
    by_cases hs : (st t).signalled = true
    · obtain ⟨L, hL, hsig⟩ := ih
        { e with calls := e.calls ++ [Call.status t] ++ [Call.kill t SIGTERM false] } hb'
      refine ⟨[Call.status t, Call.kill t SIGTERM false] ++ L, ?_, ?_⟩
      · simp only [deleteGroupLoop, ht, hst, hs, if_true, hk, hL]
        simp
      · rw [signalsSent_append, hsig]
        simp [signalsSent, handlesAt, GoMap.keys, List.filterMap_cons, ht, List.filter_cons, hs]
    · obtain ⟨L, hL, hsig⟩ := ih { e with calls := e.calls ++ [Call.status t] } hb'
      refine ⟨[Call.status t] ++ L, ?_, ?_⟩
      · simp only [deleteGroupLoop, ht, hst, hs, hL]
        simp
      · rw [signalsSent_append, hsig]
        simp [signalsSent, handlesAt, GoMap.keys, List.filterMap_cons, ht, List.filter_cons, hs]

/-- The loop of `deleteGroup` on a service whose status and kill calls succeed:
it returns, and every call it adds is a status query or a SIGTERM on the task
bound at one of the keys it visits. -/
theorem deleteGroupLoop_ok (svc : Service) (hsvc : svc.DeleteOk) :
    ∀ (ms : GoMap Machine) (e : Executor), (∀ k ∈ ms.keys, k ∈ e.Tasks.keys) →
      ∃ L, deleteGroupLoop svc ms e = .ok { e with calls := e.calls ++ L } ∧
        ∀ c ∈ L, ∃ k ∈ ms.keys, ∃ u, e.Tasks.get? k = some u ∧
          (c = Call.status u ∨ c = Call.kill u SIGTERM false) := by
  obtain ⟨hst, hk⟩ := hsvc
  intro ms
  induction ms with
  | nil =>
    intro e _
    exact ⟨[], by simp [deleteGroupLoop], by simp⟩
  | cons p ms ih =>
    intro e hb
    obtain ⟨k, m⟩ := p
    obtain ⟨t, ht⟩ := (GoMap.mem_keys_iff _ _).1 (hb k (by simp [GoMap.keys]))
    have hb' : ∀ x ∈ GoMap.keys ms, x ∈ e.Tasks.keys := fun x hx =>
      hb x (by simp only [GoMap.keys, List.map_cons, List.mem_cons]; exact Or.inr hx)
    obtain ⟨s0, hs0⟩ := hst e.calls t
    have hlift : ∀ (L : List Call) (c : Call),
        (∃ k' ∈ GoMap.keys ms, ∃ u, e.Tasks.get? k' = some u ∧
          (c = Call.status u ∨ c = Call.kill u SIGTERM false)) →
        ∃ k' ∈ GoMap.keys ((k, m) :: ms), ∃ u, e.Tasks.get? k' = some u ∧
          (c = Call.status u ∨ c = Call.kill u SIGTERM false) := by
      intro _ c ⟨k', hk', u, hu, hcu⟩
      exact ⟨k', by simp only [GoMap.keys, List.map_cons, List.mem_cons]; exact Or.inr hk',
        u, hu, hcu⟩
    have hhead : k ∈ GoMap.keys ((k, m) :: ms) := by simp [GoMap.keys]
    by_cases hs : s0.signalled = true
    · obtain ⟨L, hL, hprop⟩ := ih
        { e with calls := e.calls ++ [Call.status t] ++ [Call.kill t SIGTERM false] } hb'
      refine ⟨[Call.status t, Call.kill t SIGTERM false] ++ L, ?_, ?_⟩
      · simp only [deleteGroupLoop, ht, hs0, hs, if_true, hk, hL]
        simp
      · intro c hc
        simp only [List.cons_append, List.nil_append, List.mem_cons] at hc
        rcases hc with hc | hc | hc
        · exact ⟨k, hhead, t, ht, Or.inl hc⟩
        · exact ⟨k, hhead, t, ht, Or.inr hc⟩
        · exact hlift L c (hprop c hc)
    · obtain ⟨L, hL, hprop⟩ := ih { e with calls := e.calls ++ [Call.status t] } hb'
      refine ⟨[Call.status t] ++ L, ?_, ?_⟩
      · simp only [deleteGroupLoop, ht, hs0, hs, hL]
        simp
      · intro c hc
        simp only [List.cons_append, List.nil_append, List.mem_cons] at hc
        rcases hc with hc | hc
        · exact ⟨k, hhead, t, ht, Or.inl hc⟩
        · exact hlift L c (hprop c hc)

/-- What a list made of status queries and SIGTERMs on tasks satisfying `P`
contributes to the observations. -/
theorem statusKill_calls (P : Task → Prop) :
    ∀ (L : List Call),
      (∀ c ∈ L, ∃ u, P u ∧ (c = Call.status u ∨ c = Call.kill u SIGTERM false)) →
      createCount L = 0 ∧ (∀ M, killedAfterDelete (L ++ M) = killedAfterDelete M) ∧
        ∀ s ∈ signalsSent L, P s.1 := by
  intro L
  induction L with
  | nil => intro _; simp [createCount, signalsSent]
  | cons c L ih =>
    intro h
    obtain ⟨h1, h2, h3⟩ := ih (fun x hx => h x (List.mem_cons_of_mem _ hx))
    obtain ⟨u, hu, hc | hc⟩ := h c (List.mem_cons_self _ _)
    · subst hc
      exact ⟨by simp [createCount, h1], by intro M; simp [killedAfterDelete, h2],
        by simpa [signalsSent] using h3⟩
    · subst hc
      refine ⟨by simp [createCount, h1], by intro M; simp [killedAfterDelete, h2], ?_⟩
      intro s hs
      simp only [signalsSent, List.mem_cons] at hs
      rcases hs with hs | hs
      · rw [hs]; exact hu
      · exact h3 s hs

theorem deleteGroup_ok (svc : Service) (hsvc : svc.DeleteOk) (e : Executor) (g : String)
    (G : Group) (hG : e.Groups.get? g = some G) (hb : ∀ k ∈ G.Machines.keys, k ∈ e.Tasks.keys) :
    ∃ L, deleteGroup svc e g =
        .ok { e with calls := e.calls ++ L, Groups := e.Groups.delete g } ∧
      ∀ c ∈ L, ∃ k ∈ G.Machines.keys, ∃ u, e.Tasks.get? k = some u ∧
        (c = Call.status u ∨ c = Call.kill u SIGTERM false) := by
  obtain ⟨L, hL, hprop⟩ := deleteGroupLoop_ok svc hsvc G.Machines e hb
  refine ⟨L, ?_, hprop⟩
  simp [deleteGroup, machinesOf, hG, hL]

theorem killedAfterDelete_teardownCalls (t : Task) (ev : TaskExitCode) (c : ContainerHandle)
    (M : List Call) :
    killedAfterDelete (teardownCalls t ev c ++ M) =
      ((signalsSent M).any (fun s => decide (s.1 = t)) || killedAfterDelete M) := by
  simp [teardownCalls, killedAfterDelete, signalsSent]

/-- A sequence of termination events whose groups are absent: nothing is
created and `Tasks`, `Groups` and the watchers are left as they were. -/
theorem taskExits_absent (svc : Service) (hsvc : svc.TeardownOk)
    (evs : List TaskExitCode) (e : Executor)
    (habs : ∀ ev ∈ evs, e.Groups.get? ev.GroupName = none)
    (hb : ∀ ev ∈ evs, ev.TaskRemote ∈ e.Tasks.keys) :
    ∃ e', runEvents svc e (evs.map Event.taskExit) = .ok e' ∧
      e'.Tasks = e.Tasks ∧ e'.Groups = e.Groups ∧ e'.watchers = e.watchers ∧
      createCount e'.calls = createCount e.calls := by
  induction evs generalizing e with
  | nil => exact ⟨e, rfl, rfl, rfl, rfl, rfl⟩
  | cons ev evs ih =>
    obtain ⟨t, ht⟩ := (GoMap.mem_keys_iff _ _).1 (hb ev (List.mem_cons_self _ _))
    obtain ⟨e1, c, h1, hcalls, hgr, htk, hwt⟩ :=
      taskExited_absent svc hsvc e ev t ht (habs ev (List.mem_cons_self _ _))
    obtain ⟨e', h2, htk', hgr', hwt', hcc⟩ := ih e1
      (fun x hx => by rw [hgr]; exact habs x (List.mem_cons_of_mem _ hx))
      (fun x hx => by rw [htk]; exact hb x (List.mem_cons_of_mem _ hx))
    refine ⟨e', ?_, htk'.trans htk, hgr'.trans hgr, hwt'.trans hwt, ?_⟩
    · simp [runEvents, step, h1, h2]
    · rw [hcc, hcalls, createCount_append, createCount_teardownCalls]
      rfl

/-- The tasks `createTasks` starts for a map keyed by image reference with
distinct keys: one watcher per entry, in entry order, and the task of each is
the one bound in `Tasks` at the key of its entry when the loop ends. -/
theorem createTasks_handles (svc : Service) (hsvc : svc.CreateOk) (g : String) :
    ∀ (ms : GoMap Machine) (e : Executor), (∀ p ∈ ms, p.2.Remote = p.1) →
      (GoMap.keys ms).Nodup →
      ∃ e' ws, createTasks svc g ms e = .ok e' ∧ e'.watchers = e.watchers ++ ws ∧
        e'.Groups = e.Groups ∧
        ws.map Watcher.task = handlesAt e'.Tasks (GoMap.keys ms) ∧
        ws.map (fun w => (w.GroupName, w.TaskRemote)) = (GoMap.keys ms).map (fun k => (g, k)) ∧
        (∀ k ∈ GoMap.keys ms, k ∈ e'.Tasks.keys) ∧
        (∀ k, k ∉ GoMap.keys ms → e'.Tasks.get? k = e.Tasks.get? k) := by
  intro ms
  induction ms with
  | nil =>
    intro e _ _
    exact ⟨e, [], rfl, by simp, rfl, by simp [handlesAt, GoMap.keys], by simp [GoMap.keys],
      by simp [GoMap.keys], fun _ _ => rfl⟩
  | cons p ms ih =>
    intro e hkeyed hnd
    obtain ⟨k, m⟩ := p
    have hmk : m.Remote = k := hkeyed (k, m) (List.mem_cons_self _ _)
    simp only [GoMap.keys, List.map_cons, List.nodup_cons] at hnd
    obtain ⟨t, _, hct⟩ := createTask_ok svc hsvc e g m
    obtain ⟨e', ws, he', hw, hG, hh, hn, hbd, hfr⟩ := ih
      { e with
        calls := e.calls ++ [Call.runTask m ("discovery-" ++ g), Call.wait t, Call.start t]
        Tasks := e.Tasks.set m.Remote t
        watchers := e.watchers ++
          [{ task := t, GroupName := g, TaskGUID := m.GUID, TaskRemote := m.Remote }] }
      (fun q hq => hkeyed q (List.mem_cons_of_mem _ hq)) hnd.2
    have hk' : e'.Tasks.get? k = some t := by
      rw [hfr k hnd.1]
      simp only [hmk]
      exact GoMap.get?_set_self _ _ _
    refine ⟨e', { task := t, GroupName := g, TaskGUID := m.GUID, TaskRemote := m.Remote } :: ws,
      ?_, ?_, hG, ?_, ?_, ?_, ?_⟩
    · simp [createTasks, hct, he']
    · rw [hw]; simp
    · simp only [GoMap.keys] at hh
      simp [handlesAt, GoMap.keys, List.filterMap_cons, hk', hh]
    · simp only [GoMap.keys] at hn
      simp [GoMap.keys, hn, hmk]
    · intro x hx
      simp only [GoMap.keys, List.map_cons, List.mem_cons] at hx
      rcases hx with hx | hx
      · rw [hx]; exact (GoMap.mem_keys_iff _ _).2 ⟨t, hk'⟩
      · exact hbd x hx
    · intro x hx
      simp only [GoMap.keys, List.map_cons, List.mem_cons, not_or] at hx
      rw [hfr x hx.2]
      exact GoMap.get?_set_ne _ _ _ _ (by rw [hmk]; exact fun h => hx.1 h.symm)

/-- What `deleteGroup` sends when the status of a task is given by `st`: one
SIGTERM, in visiting order, for each key of the group whose task bound in
`Tasks` has status Running, Paused or Pausing. -/
theorem deleteGroup_assigned (svc : Service) (e : Executor) (g : String) (G : Group)
    (st : Task → ProcessStatus) (hG : e.Groups.get? g = some G)
    (hb : ∀ k ∈ G.Machines.keys, k ∈ e.Tasks.keys)
    (hst : ∀ h t, svc.status h t = .ok (st t))
    (hk : ∀ h t, svc.kill h t SIGTERM false = .ok ()) :
    ∃ e', deleteGroup svc e g = .ok e' ∧ e'.Groups.get? g = none ∧ e'.Tasks = e.Tasks ∧
      signalsSent (e'.calls.drop e.calls.length) =
        ((handlesAt e.Tasks G.Machines.keys).filter
          (fun t => st t = ProcessStatus.Running ∨ st t = ProcessStatus.Paused ∨
            st t = ProcessStatus.Pausing)).map (fun t => (t, SIGTERM, false)) ∧
      (handlesAt e.Tasks G.Machines.keys).length = G.Machines.length ∧
      ((∀ t ∈ handlesAt e.Tasks G.Machines.keys, st t = ProcessStatus.Running) →
        signalsSent (e'.calls.drop e.calls.length) =
            (handlesAt e.Tasks G.Machines.keys).map (fun t => (t, SIGTERM, false)) ∧
          (signalsSent (e'.calls.drop e.calls.length)).length = G.Machines.length) := by
  obtain ⟨L, hL, hsig⟩ := deleteGroupLoop_assigned svc st hst hk G.Machines e hb
  have hlen : (handlesAt e.Tasks G.Machines.keys).length = G.Machines.length := by
    rw [handlesAt_length _ _ hb]; simp [GoMap.keys]
  have hfilt : (fun t => decide (st t = ProcessStatus.Running ∨ st t = ProcessStatus.Paused ∨
      st t = ProcessStatus.Pausing)) = (fun t => (st t).signalled) := by
    funext t
    simp [ProcessStatus.signalled, Bool.or_assoc]
  refine ⟨{ e with calls := e.calls ++ L, Groups := e.Groups.delete g }, ?_, ?_, rfl, ?_,
    hlen, ?_⟩
  · simp [deleteGroup, machinesOf, hG, hL]
  · exact GoMap.get?_delete_self _ _
  · simp only [List.drop_left]
    rw [hsig, hfilt]
  · intro hall
    simp only [List.drop_left]
    have : (handlesAt e.Tasks G.Machines.keys).filter (fun t => (st t).signalled) =
        handlesAt e.Tasks G.Machines.keys := by
      rw [List.filter_eq_self]
      intro t ht
      simp [ProcessStatus.signalled, hall t ht]
    rw [hsig, this]
    exact ⟨rfl, by simp [hlen]⟩

theorem deletedTasks_append (a b : List Call) :
    deletedTasks (a ++ b) = deletedTasks a ++ deletedTasks b := by
  induction a with
  | nil => simp [deletedTasks]
  | cons c a ih => cases c <;> simp [deletedTasks, ih]

/-- A history without a kill after a delete, extended by calls that have none
either and signal no task the history deleted, still has none. -/
theorem killedAfterDelete_append_false :
    ∀ (A B : List Call), killedAfterDelete A = false → killedAfterDelete B = false →
      (∀ s ∈ signalsSent B, s.1 ∉ deletedTasks A) → killedAfterDelete (A ++ B) = false := by
  intro A
  induction A with
  | nil => intro B _ hB _; simpa using hB
  | cons c A ih =>
    intro B hA hB hsig
    cases c with
    | deleteTask t =>
      simp only [killedAfterDelete, Bool.or_eq_false_iff] at hA
      have hsig' : ∀ s ∈ signalsSent B, s.1 ∉ deletedTasks A := by
        intro s hs hmem
        exact hsig s hs (by simp [deletedTasks, hmem])
      have hne : ∀ s ∈ signalsSent B, ¬ s.1 = t := by
        intro s hs heq
        exact hsig s hs (by simp [deletedTasks, heq])
      simp only [List.cons_append, killedAfterDelete, Bool.or_eq_false_iff]
      refine ⟨?_, ih B hA.2 hB hsig'⟩
      have happ : A.append B = A ++ B := rfl
      rw [happ, signalsSent_append, List.any_append, Bool.or_eq_false_iff]
      refine ⟨hA.1, ?_⟩
      rw [List.any_eq_false]
      intro s hs
      simpa using hne s hs
    | runTask m n =>
      exact ih B (by simpa [killedAfterDelete] using hA) hB
        (by simpa [deletedTasks] using hsig)
    | wait t =>
      exact ih B (by simpa [killedAfterDelete] using hA) hB
        (by simpa [deletedTasks] using hsig)
    | start t =>
      exact ih B (by simpa [killedAfterDelete] using hA) hB
        (by simpa [deletedTasks] using hsig)
    | status t =>
      exact ih B (by simpa [killedAfterDelete] using hA) hB
        (by simpa [deletedTasks] using hsig)
    | kill t sig all =>
      exact ih B (by simpa [killedAfterDelete] using hA) hB
        (by simpa [deletedTasks] using hsig)
    | recvExit t =>
      exact ih B (by simpa [killedAfterDelete] using hA) hB
        (by simpa [deletedTasks] using hsig)
    | loadContainer id =>
      exact ih B (by simpa [killedAfterDelete] using hA) hB
        (by simpa [deletedTasks] using hsig)
    | deleteContainer c b =>
      exact ih B (by simpa [killedAfterDelete] using hA) hB
        (by simpa [deletedTasks] using hsig)

/-- Why the history matters for kills after deletes: "workers" and "other"
share the image "X"; after "other" is deleted and its task 6 has exited and
been deleted, `Tasks` still binds "X" to task 6 and the history has no kill
after a delete. Deleting "workers" and the exit of its task of image "X", in
either order, then signal task 6 after its delete. -/
theorem stale_task_signalled_after_delete :
    (runEvents svcOk (NewExecutor "ns")
        [Event.newGroup groupWorkers, Event.newGroup groupOther, Event.deleteGroup "other",
          Event.taskExit { GroupName := "other", TaskGUID := "o0", TaskRemote := "X",
                           ExitCode := 0 }]).toOption.map
        (fun e => (killedAfterDelete e.calls, e.Tasks.get? "X", deletedTasks e.calls,
          (runEvents svcOk e [Event.deleteGroup "workers", Event.taskExit exitX]).toOption.map
            (fun e' => killedAfterDelete e'.calls),
          (runEvents svcOk e [Event.taskExit exitX, Event.deleteGroup "workers"]).toOption.map
            (fun e' => killedAfterDelete e'.calls))) =
      some (false, some 6, [6], some true, some true) := by
  rfl

/-! ## Lemmas: what every run preserves -/

theorem createTask_inv (svc : Service) (e e' : Executor) (g : String) (m : Machine)
    (h : createTask svc e g m = .ok e') :
    (∀ k ∈ e.Tasks.keys, k ∈ e'.Tasks.keys) ∧ m.Remote ∈ e'.Tasks.keys ∧
      (e.WatchersBound → e'.WatchersBound) := by
  simp only [createTask] at h
  split at h
  · cases h
  · split at h
    · cases h
    · split at h
      · cases h
      · cases h
        refine ⟨?_, ?_, ?_⟩
        · intro k hk
          exact (GoMap.mem_keys_set _ _ _ _).2 (Or.inl hk)
        · exact (GoMap.mem_keys_set _ _ _ _).2 (Or.inr rfl)
        · intro hw w hmem
          simp only [List.mem_append, List.mem_singleton] at hmem
          rcases hmem with hmem | hmem
          · exact (GoMap.mem_keys_set _ _ _ _).2 (Or.inl (hw w hmem))
          · subst hmem
            exact (GoMap.mem_keys_set _ _ _ _).2 (Or.inr rfl)

theorem createTasks_inv (svc : Service) (g : String) :
    ∀ (ms : GoMap Machine) (e e' : Executor), createTasks svc g ms e = .ok e' →
      (∀ k ∈ e.Tasks.keys, k ∈ e'.Tasks.keys) ∧
        (∀ m ∈ ms.values, m.Remote ∈ e'.Tasks.keys) ∧
        (e.WatchersBound → e'.WatchersBound) := by
  intro ms
  induction ms with
  | nil =>
    intro e e' h
    simp only [createTasks, Except.ok.injEq] at h
    subst h
    exact ⟨fun _ hk => hk, by simp [GoMap.values], fun hw => hw⟩
  | cons p ms ih =>
    intro e e' h
    obtain ⟨k0, m⟩ := p
    simp only [createTasks] at h
    split at h
    · cases h
    · rename_i e1 h1
      obtain ⟨a1, a2, a3⟩ := createTask_inv svc e e1 g m h1
      obtain ⟨b1, b2, b3⟩ := ih e1 e' h
      refine ⟨fun k hk => b1 k (a1 k hk), ?_, fun hw => b3 (a3 hw)⟩
      intro x hx
      simp only [GoMap.values, List.map_cons, List.mem_cons] at hx
      rcases hx with hx | hx
      · rw [hx]; exact b1 _ a2
      · exact b2 x hx

theorem deleteGroupLoop_frame (svc : Service) :
    ∀ (ms : GoMap Machine) (e e' : Executor), deleteGroupLoop svc ms e = .ok e' →
      e'.Tasks = e.Tasks ∧ e'.watchers = e.watchers ∧ e'.Groups = e.Groups := by
  intro ms
  induction ms with
  | nil =>
    intro e e' h
    simp only [deleteGroupLoop, Except.ok.injEq] at h
    subst h
    exact ⟨rfl, rfl, rfl⟩
  | cons p ms ih =>
    intro e e' h
    obtain ⟨k0, m⟩ := p
    simp only [deleteGroupLoop] at h
    split at h
    · cases h
    · split at h
      · cases h
      · split at h
        · split at h
          · cases h
          · have h2 := ih _ _ h
            exact h2
        · have h2 := ih _ _ h
          exact h2

/-- One iteration of `Executor.run` removes no key from `Tasks` and keeps
every exit watcher bound. -/
theorem step_inv (svc : Service) (e e' : Executor) (ev : Event) (h : step svc e ev = .ok e') :
    (∀ k ∈ e.Tasks.keys, k ∈ e'.Tasks.keys) ∧ (e.WatchersBound → e'.WatchersBound) := by
  cases ev with
  | newGroup G =>
    obtain ⟨a1, _, a3⟩ := createTasks_inv svc G.Name G.Machines _ e' h
    exact ⟨a1, fun hw => a3 hw⟩
  | deleteGroup n =>
    simp only [step, deleteGroup] at h
    split at h
    · cases h
    · rename_i e1 h1
      cases h
      obtain ⟨b1, b2, _⟩ := deleteGroupLoop_frame svc _ e e1 h1
      refine ⟨fun k hk => by simpa [b1] using hk, ?_⟩
      intro hw w hmem
      simp only [b2] at hmem
      simpa [b1] using hw w hmem
  | taskExit x =>
    simp only [step, taskExited] at h
    split at h
    · cases h
    · rename_i e1 h1
      obtain ⟨_, b2, b3, _⟩ := teardown_frame svc _ e1 x h1
      have hw1 : e.WatchersBound → e1.WatchersBound := by
        intro hw w hmem
        rw [b3] at hmem
        rw [b2]
        exact hw w hmem
      split at h
      · obtain ⟨a1, _, a3⟩ := createTask_inv svc e1 e' _ _ h
        exact ⟨fun k hk => a1 k (by rw [b2]; exact hk), fun hw => a3 (hw1 hw)⟩
      · cases h
        exact ⟨fun k hk => by rw [b2]; exact hk, hw1⟩

/-! ## Theorems: executor -/

/-- C1 (amended): with every call succeeding, `createGroup` returns a state in
which `Groups[G.Name] = G`, the keys of `Tasks` are the keys before together
with the image references (Remote) of the descriptors of `G`, and one
Create-Instance was performed per descriptor; when the image references of the
`N` descriptors are pairwise distinct and none was a key of `Tasks` before,
exactly `N` keys of `Tasks` are new. -/
theorem createGroup_spec (svc : Service) (e : Executor) (G : Group) (hsvc : svc.CreateOk) :
    ∃ e', createGroup svc e G = .ok e' ∧
      e'.Groups.get? G.Name = some G ∧
      (∀ k, k ∈ e'.Tasks.keys ↔ k ∈ e.Tasks.keys ∨ k ∈ G.remotes) ∧
      createCount e'.calls = createCount e.calls + G.Machines.length ∧
      (G.remotes.Nodup → (∀ r ∈ G.remotes, r ∉ e.Tasks.keys) →
        (newTaskKeys e e').length = G.Machines.length) := by
  obtain ⟨e', he', hG, _, hK, hN, hC⟩ :=
    createTasks_ok svc hsvc G.Name G.Machines { e with Groups := e.Groups.set G.Name G }
  refine ⟨e', he', ?_, hK, hC, ?_⟩
  · rw [hG]
    exact GoMap.get?_set_self _ _ _
  · intro hnd hfresh
    have hkeys := hN hnd hfresh
    simp only at hkeys
    unfold newTaskKeys
    rw [hkeys, List.filter_append]
    have h1 : List.filter (fun k => decide (k ∉ e.Tasks.keys)) e.Tasks.keys = [] := by
      rw [List.filter_eq_nil_iff]
      intro a ha
      simpa using ha
    have h2 : List.filter (fun k => decide (k ∉ e.Tasks.keys))
        (G.Machines.values.map Machine.Remote) = G.Machines.values.map Machine.Remote := by
      rw [List.filter_eq_self]
      intro a ha
      simpa using hfresh a ha
    rw [h1, h2]
    simp [GoMap.values]

/-- C1 at a concrete input: creating "workers" (two instances, images "X" and
"Y") in the initial state gives two new keys in `Tasks`. -/
theorem createGroup_spec_witness :
    svcOk.CreateOk ∧
      ∃ e', createGroup svcOk (NewExecutor "ns") groupWorkers = .ok e' ∧
        e'.Groups.get? "workers" = some groupWorkers ∧
        (newTaskKeys (NewExecutor "ns") e').length = 2 := by
  have hsvc : svcOk.CreateOk := ⟨fun h _ _ => ⟨h.length, rfl⟩, fun _ _ => rfl, fun _ _ => rfl⟩
  obtain ⟨e', h1, h2, _, _, h5⟩ := createGroup_spec svcOk (NewExecutor "ns") groupWorkers hsvc
  exact ⟨hsvc, e', h1, h2, h5 (by decide) (by decide)⟩

/-- C1 as stated fails: after "workers" was created, creating "other", whose
one descriptor has the image "X" of an instance of "workers", adds no key to
`Tasks` although the group holds one descriptor. -/
theorem createGroup_shared_image_no_new_key :
    (createGroup svcOk (NewExecutor "ns") groupWorkers).toOption.map
        (fun e1 => (createGroup svcOk e1 groupOther).toOption.map
          (fun e2 => (e1.Tasks.keys, e2.Tasks.keys, (newTaskKeys e1 e2).length,
            groupOther.Machines.length))) =
      some (some (["X", "Y"], ["X", "Y"], 0, 1)) := by
  decide

/-- C2 (amended): when the group of a termination event is not a key of
`Groups`, the task-exited branch, with every teardown call succeeding, returns
having performed no Create-Instance and leaves `Tasks` exactly as it was: no
key is removed, so the entry of the event's execution key is still there. This
holds along any sequence of such events; in particular, after the deletion of
group `g` followed by termination events of `g`, the group is absent, nothing
was created and `Tasks` is what it was before the deletion. -/
theorem taskExited_group_absent (svc : Service) (evs : List TaskExitCode) (e : Executor)
    (hsvc : svc.TeardownOk) (hb : ∀ ev ∈ evs, ev.TaskRemote ∈ e.Tasks.keys) :
    ((∀ ev ∈ evs, e.Groups.get? ev.GroupName = none) →
        ∃ e', runEvents svc e (evs.map Event.taskExit) = .ok e' ∧
          e'.Tasks = e.Tasks ∧ e'.Groups = e.Groups ∧ e'.watchers = e.watchers ∧
          createCount e'.calls = createCount e.calls) ∧
      (∀ (g : String) (G : Group), svc.DeleteOk → e.Groups.get? g = some G →
        (∀ k ∈ G.Machines.keys, k ∈ e.Tasks.keys) → (∀ ev ∈ evs, ev.GroupName = g) →
        ∃ e', runEvents svc e (Event.deleteGroup g :: evs.map Event.taskExit) = .ok e' ∧
          e'.Tasks = e.Tasks ∧ e'.Groups.get? g = none ∧
          createCount e'.calls = createCount e.calls) := by
  refine ⟨fun habs => taskExits_absent svc hsvc evs e habs hb, ?_⟩
  intro g G hdel hG hkeys hname
  obtain ⟨L, hL, hprop⟩ := deleteGroup_ok svc hdel e g G hG hkeys
  obtain ⟨hc0, _, _⟩ := statusKill_calls (fun _ => True) L (by
    intro c hcL
    obtain ⟨_, _, u, _, hcu⟩ := hprop c hcL
    exact ⟨u, trivial, hcu⟩)
  obtain ⟨e', h1, h2, h3, _, h5⟩ := taskExits_absent svc hsvc evs
    { e with calls := e.calls ++ L, Groups := e.Groups.delete g }
    (fun ev hev => by rw [hname ev hev]; exact GoMap.get?_delete_self _ _) hb
  refine ⟨e', ?_, h2, ?_, ?_⟩
  · simp only [runEvents, step, hL]
    exact h1
  · rw [h3]; exact GoMap.get?_delete_self _ _
  · rw [h5]
    simp [createCount_append, hc0]

/-- C2 at a concrete input: "workers" is deleted and its two tasks exit; the
group is gone, both keys are still in `Tasks` and nothing was created. -/
theorem taskExited_group_absent_witness :
    ∃ e', runEvents svcOk stateWorkers
        [Event.deleteGroup "workers", Event.taskExit exitX, Event.taskExit exitY] = .ok e' ∧
      e'.Tasks = [("X", 0), ("Y", 3)] ∧ e'.Groups.get? "workers" = none ∧
      createCount e'.calls = 2 :=
  (taskExited_group_absent svcOk [exitX, exitY] stateWorkers svcOk_teardownOk (by decide)).2
    "workers" groupWorkers svcOk_deleteOk (by decide) (by decide) (by decide)

/-- C2 as stated fails: after "workers" is deleted and its two tasks exit,
`Tasks` still holds the entries of both execution keys. -/
theorem tasks_entry_survives_reap :
    (runEvents svcOk stateWorkers
        [Event.deleteGroup "workers", Event.taskExit exitX, Event.taskExit exitY]).toOption.map
        (fun e => (e.Groups, e.Tasks.get? "X", e.Tasks.get? "Y", e.Tasks.keys.length)) =
      some ([], some 0, some 3, 2) := by
  decide

/-- C3 (amended): when the group of a termination event is a key of `Groups`
and the `Machines` map of that group holds, at the key `TaskRemote`, a
descriptor whose Remote is `TaskRemote`, the task-exited branch, with every
call succeeding, performs exactly one Create-Instance and ends with
`Tasks[TaskRemote]` bound to the handle that create returned, in place of the
prior handle, the keys of `Tasks` being the same as before. -/
theorem taskExited_restart (svc : Service) (e : Executor) (ev : TaskExitCode) (t : Task)
    (G : Group) (m : Machine) (hc : svc.CreateOk) (hsvc : svc.TeardownOk)
    (ht : e.Tasks.get? ev.TaskRemote = some t)
    (hG : e.Groups.get? ev.GroupName = some G)
    (hm : G.Machines.get? ev.TaskRemote = some m) (hr : m.Remote = ev.TaskRemote) :
    ∃ e' c t', taskExited svc e ev = .ok e' ∧
      svc.runTask (e.calls ++ teardownCalls t ev c) m ("discovery-" ++ ev.GroupName) = .ok t' ∧
      e'.calls = e.calls ++ teardownCalls t ev c ++
        [Call.runTask m ("discovery-" ++ ev.GroupName), Call.wait t', Call.start t'] ∧
      createCount e'.calls = createCount e.calls + 1 ∧
      e'.Tasks.get? ev.TaskRemote = some t' ∧
      (∀ k, k ≠ ev.TaskRemote → e'.Tasks.get? k = e.Tasks.get? k) ∧
      e'.Tasks.keys = e.Tasks.keys := by
  obtain ⟨e', c, t', h1, hrun, hcalls, _, htk, _⟩ :=
    taskExited_present svc hc hsvc e ev t G ht hG
  have hrm : restartMachine e ev = m := by
    simp [restartMachine, machinesOf, hG, hm]
  rw [hrm] at hrun hcalls htk
  rw [hr] at htk
  refine ⟨e', c, t', h1, hrun, hcalls, ?_, ?_, ?_, ?_⟩
  · rw [hcalls, createCount_append, createCount_append, createCount_teardownCalls]
    simp [createCount]
  · rw [htk]; exact GoMap.get?_set_self _ _ _
  · intro k hk
    rw [htk]; exact GoMap.get?_set_ne _ _ _ _ (fun h => hk h.symm)
  · rw [htk]
    exact GoMap.keys_set_of_mem _ _ _ ((GoMap.mem_keys_iff _ _).2 ⟨t, ht⟩)

/-- C3 at a concrete input: the task of image "X" of "workers" exits while
"workers" is registered; one task is created and bound at "X" in place of
task 0, and `Tasks` keeps its two keys. -/
theorem taskExited_restart_witness :
    ∃ e' t', taskExited svcOk stateWorkers exitX = .ok e' ∧
      createCount e'.calls = createCount stateWorkers.calls + 1 ∧
      e'.Tasks.get? "X" = some t' ∧ e'.Tasks.keys = ["X", "Y"] := by
  obtain ⟨e', _, t', h1, _, _, h4, h5, _, h7⟩ :=
    taskExited_restart svcOk stateWorkers exitX 0 groupWorkers { GUID := "w0", Remote := "X" }
      svcOk_createOk svcOk_teardownOk (by decide) (by decide) (by decide) (by decide)
  exact ⟨e', t', h1, h4, h5, h7⟩

/-- C3 as stated fails: "workers" is registered again with another `Machines`
map before the task of image "X" exits; the group name is a key of `Groups`,
yet the restart binds a new task at the key "" of the zero descriptor, the
entry at "X" keeps the prior handle 0, and `Tasks` gains a key. -/
theorem restart_after_reregistration_misses_key :
    (runEvents svcOk stateWorkers
        [Event.newGroup groupWorkersAgain, Event.taskExit exitX]).toOption.map
        (fun e => (e.Groups.keys, e.Tasks)) =
      some (["workers"], [("X", 0), ("Y", 3), ("Z", 6), ("", 15)]) := by
  decide

/-- C6: for a termination event whose task is bound in `Tasks`, the teardown
aborts the supervisor exactly when the kill fails with an error that is
neither not-found nor failed-precondition, or the task delete fails, or
registering the wait fails, or loading the container fails; the answer of the
container delete has no influence on the outcome of the task-exited branch
other than the log: whether it aborts, whether it restarts and the state it
reaches are the same for every answer. -/
theorem teardown_abort_iff (svc : Service) (e : Executor) (ev : TaskExitCode) (t : Task)
    (dc : List Call → ContainerHandle → Bool → Except Err Unit)
    (ht : e.Tasks.get? ev.TaskRemote = some t) :
    (aborted (teardown svc e ev) = true ↔
        (∃ err, svc.kill e.calls t SIGTERM true = .error err ∧
            err.IsNotFound = false ∧ err.IsFailedPrecondition = false) ∨
        (∃ err, svc.deleteTask (e.calls ++ [Call.kill t SIGTERM true]) t = .error err) ∨
        (∃ err, svc.wait (e.calls ++ [Call.kill t SIGTERM true, Call.deleteTask t]) t =
            .error err) ∨
        (∃ err, svc.loadContainer
            (e.calls ++ [Call.kill t SIGTERM true, Call.deleteTask t, Call.wait t,
              Call.recvExit t]) ev.TaskGUID = .error err)) ∧
      aborted (teardown { svc with deleteContainer := dc } e ev) = aborted (teardown svc e ev) ∧
      outcomeWithoutLog (taskExited { svc with deleteContainer := dc } e ev) =
        outcomeWithoutLog (taskExited svc e ev) := by
  refine ⟨?_, ?_, taskExited_withoutLog svc dc e ev⟩
  · have key : aborted (teardown.teardownAfterKill svc e ev
          (e.calls ++ [Call.kill t SIGTERM true]) t) = true ↔
        (∃ err, svc.deleteTask (e.calls ++ [Call.kill t SIGTERM true]) t = .error err) ∨
        (∃ err, svc.wait (e.calls ++ [Call.kill t SIGTERM true, Call.deleteTask t]) t =
            .error err) ∨
        (∃ err, svc.loadContainer
            (e.calls ++ [Call.kill t SIGTERM true, Call.deleteTask t, Call.wait t,
              Call.recvExit t]) ev.TaskGUID = .error err) := by
      simp only [teardown.teardownAfterKill, List.append_assoc, List.singleton_append,
        List.cons_append, List.nil_append]
      cases svc.deleteTask (e.calls ++ [Call.kill t SIGTERM true]) t with
      | error err => simp [aborted]
      | ok u =>
        cases svc.wait (e.calls ++ [Call.kill t SIGTERM true, Call.deleteTask t]) t with
        | error err => simp [aborted]
        | ok u =>
          cases svc.loadContainer
              (e.calls ++ [Call.kill t SIGTERM true, Call.deleteTask t, Call.wait t,
                Call.recvExit t]) ev.TaskGUID with
          | error err => simp [aborted]
          | ok c =>
            simp only
            split <;> simp [aborted]
    simp only [teardown, ht]
    cases hk : svc.kill e.calls t SIGTERM true with
    | error err =>
      simp only
      by_cases hf : (!err.IsFailedPrecondition && !err.IsNotFound) = true
      · simp only [hf, if_true, aborted, true_iff]
        left
        refine ⟨err, rfl, ?_⟩
        revert hf
        cases err.IsNotFound <;> cases err.IsFailedPrecondition <;> simp
      · simp only [hf, if_false, Bool.false_eq_true]
        rw [key]
        constructor
        · intro h; exact Or.inr h
        · rintro (⟨err2, he, h1, h2⟩ | h)
          · cases he
            simp [h1, h2] at hf
          · exact h
    | ok u =>
      simp only
      rw [key]
      constructor
      · intro h; exact Or.inr h
      · rintro (⟨err2, he, _⟩ | h)
        · cases he
        · exact h
  · have h := teardown_withoutLog svc dc e ev
    cases h1 : teardown { svc with deleteContainer := dc } e ev <;>
      cases h2 : teardown svc e ev <;> rw [h1, h2] at h <;>
      simp [outcomeWithoutLog, aborted] at h ⊢

/-- C6 at a concrete input: on a service whose kill fails with not-found and
whose container delete fails, the teardown of the task of image "X" does not
abort and the restart is performed as on a service whose container delete
succeeds. -/
theorem teardown_abort_iff_witness :
    aborted (teardown svcFlaky stateWorkers exitX) = false ∧
      (outcomeWithoutLog (taskExited svcFlaky stateWorkers exitX)).toOption.map
          (fun e => createCount e.calls) = some 3 ∧
      outcomeWithoutLog
          (taskExited { svcFlaky with deleteContainer := svcOk.deleteContainer }
            stateWorkers exitX) =
        outcomeWithoutLog (taskExited svcFlaky stateWorkers exitX) :=
  ⟨by decide, by decide,
    (teardown_abort_iff svcFlaky stateWorkers exitX 0 svcOk.deleteContainer (by decide)).2.2⟩

/-- C9 (amended): for every service and every termination event whose teardown
does not abort, when the group of the event is registered at reap time and its
`Machines` map holds a descriptor at the key `TaskRemote`, the task-exited
branch is Create-Instance applied to that descriptor, an element of the map of
the group registered at that time: it is the one descriptor passed to the
execution service, and the branch returns when the calls of the create
succeed. That descriptor is the one the exited task was started from (GUID
`TaskGUID`, Remote `TaskRemote`) whenever the map still holds that descriptor
at its image reference, which need not be so after the group name was
registered again. -/
theorem restart_descriptor (svc : Service) (e : Executor) (ev : TaskExitCode)
    (G : Group) (m : Machine)
    (hG : e.Groups.get? ev.GroupName = some G)
    (hm : G.Machines.get? ev.TaskRemote = some m)
    (hna : aborted (teardown svc e ev) = false) :
    (∃ e1, taskExited svc e ev = createTask svc e1 ev.GroupName m ∧
        e1.Groups = e.Groups ∧ e1.Tasks = e.Tasks) ∧
      (∀ e', taskExited svc e ev = .ok e' →
        descriptorsCreated (e'.calls.drop e.calls.length) = [m]) ∧
      (svc.CreateOk → ∃ e', taskExited svc e ev = .ok e') ∧
      m ∈ G.Machines.values ∧
      (∀ m₀ : Machine, m₀.GUID = ev.TaskGUID → m₀.Remote = ev.TaskRemote →
        G.Machines.get? m₀.Remote = some m₀ →
        m = m₀ ∧ m.GUID = ev.TaskGUID ∧ m.Remote = ev.TaskRemote) := by
  have hlog := teardown_log svc e ev (e.log ++ [LogLine.exited ev])
  cases h1 : teardown svc { e with log := e.log ++ [LogLine.exited ev] } ev with
  | error a =>
    rw [h1] at hlog
    cases h0 : teardown svc e ev with
    | error b => rw [h0] at hna; simp [aborted] at hna
    | ok e0 => rw [h0] at hlog; simp [outcomeWithoutLog] at hlog
  | ok e1 =>
    obtain ⟨hgr, htk, _, _⟩ := teardown_frame svc _ e1 ev h1
    obtain ⟨t, c, _, _, hcalls⟩ := teardown_result svc _ e1 ev h1
    have hg1 : e1.Groups.get? ev.GroupName = some G := by rw [hgr]; exact hG
    have hrm : restartMachine e1 ev = m := by
      simp [restartMachine, machinesOf, hgr, hG, hm]
    have hte : taskExited svc e ev = createTask svc e1 ev.GroupName m := by
      simp only [taskExited, h1, hg1, hrm]
    refine ⟨⟨e1, hte, hgr, htk⟩, ?_, ?_, GoMap.mem_values_of_get? _ _ _ hm, ?_⟩
    · intro e' he'
      rw [hte] at he'
      obtain ⟨t', _, hc'⟩ := createTask_result svc e1 e' ev.GroupName m he'
      rw [hc', hcalls]
      simp only [List.append_assoc, List.drop_left, descriptorsCreated_append]
      simp [teardownCalls, descriptorsCreated]
    · intro hc
      obtain ⟨t', _, hct⟩ := createTask_ok svc hc e1 ev.GroupName m
      exact ⟨_, hte.trans hct⟩
    · intro m₀ hg hr hm₀
      rw [hr, hm] at hm₀
      cases hm₀
      exact ⟨rfl, hg, hr⟩

/-- C9 at a concrete input: the task of image "X" of "workers" exits while the
group is registered as it was created, on a service whose kill answers
not-found and whose container delete fails; the teardown does not abort and
the restart is given the descriptor with GUID "w0" and Remote "X". -/
theorem restart_descriptor_witness :
    aborted (teardown svcFlaky stateWorkers exitX) = false ∧
      ∃ e', taskExited svcFlaky stateWorkers exitX = .ok e' ∧
        descriptorsCreated (e'.calls.drop stateWorkers.calls.length) =
          [{ GUID := "w0", Remote := "X" }] := by
  have h := restart_descriptor svcFlaky stateWorkers exitX groupWorkers
    { GUID := "w0", Remote := "X" } (by decide) (by decide) (by decide)
  obtain ⟨e', he'⟩ := h.2.2.1 ⟨fun h _ _ => ⟨h.length, rfl⟩, fun _ _ => rfl, fun _ _ => rfl⟩
  exact ⟨by decide, e', he', h.2.1 e' he'⟩

/-- C9 as stated fails: "workers" is registered again, with another descriptor
(GUID "w9") for the image "X", before the task started from the descriptor
with GUID "w0" exits; the descriptor passed to Create-Instance is the one with
GUID "w9", not the one the exited task was started from. -/
theorem restart_after_reregistration_other_descriptor :
    (createGroup svcOk stateWorkers groupWorkersRenewed).toOption.map
        (fun e1 => (taskExited svcOk e1 exitX).toOption.map
          (fun e2 => (exitX.TaskGUID,
            descriptorsCreated (e2.calls.drop e1.calls.length)))) =
      some (some ("w0", [{ GUID := "w9", Remote := "X" }])) := by
  decide

/-- C10 (amended): for a termination event whose task `t` is bound in `Tasks`,
with every call succeeding, the task-exited branch issues, in this order, a
SIGTERM (the signal `deleteGroup` sends, not SIGKILL) with the kill-all option
on `t`, the delete of `t`, the wait on `t` and the receive on its exit
channel, the load of the container named by the `TaskGUID` of the event and
the delete, with snapshot cleanup, of the container `c` that this load
returned; these are all its calls when the group is not registered, and when
it is they are followed by the three calls of one Create-Instance. -/
theorem taskExited_call_order (svc : Service) (e : Executor) (ev : TaskExitCode) (t : Task)
    (hc : svc.CreateOk) (hsvc : svc.TeardownOk)
    (ht : e.Tasks.get? ev.TaskRemote = some t) :
    ∃ e' c, taskExited svc e ev = .ok e' ∧
      svc.loadContainer
        (e.calls ++ [Call.kill t SIGTERM true, Call.deleteTask t, Call.wait t, Call.recvExit t])
        ev.TaskGUID = .ok c ∧
      ((e.Groups.get? ev.GroupName = none ∧
          e'.calls = e.calls ++
            [Call.kill t SIGTERM true, Call.deleteTask t, Call.wait t, Call.recvExit t,
              Call.loadContainer ev.TaskGUID, Call.deleteContainer c true]) ∨
        (∃ G t', e.Groups.get? ev.GroupName = some G ∧
          svc.runTask
            (e.calls ++
              [Call.kill t SIGTERM true, Call.deleteTask t, Call.wait t, Call.recvExit t,
                Call.loadContainer ev.TaskGUID, Call.deleteContainer c true])
            (restartMachine e ev) ("discovery-" ++ ev.GroupName) = .ok t' ∧
          e'.calls = e.calls ++
            [Call.kill t SIGTERM true, Call.deleteTask t, Call.wait t, Call.recvExit t,
              Call.loadContainer ev.TaskGUID, Call.deleteContainer c true] ++
            [Call.runTask (restartMachine e ev) ("discovery-" ++ ev.GroupName),
              Call.wait t', Call.start t'])) := by
  obtain ⟨e1, c, h1, hload, hcalls, hgr, _, _⟩ :=
    teardown_ok svc hsvc { e with log := e.log ++ [LogLine.exited ev] } ev t ht
  have hcalls' : e1.calls = e.calls ++
      [Call.kill t SIGTERM true, Call.deleteTask t, Call.wait t, Call.recvExit t,
        Call.loadContainer ev.TaskGUID, Call.deleteContainer c true] := by
    simpa [teardownCalls] using hcalls
  cases hG : e.Groups.get? ev.GroupName with
  | none =>
    have hg1 : e1.Groups.get? ev.GroupName = none := by rw [hgr]; exact hG
    refine ⟨e1, c, ?_, hload, Or.inl ⟨rfl, hcalls'⟩⟩
    simp [taskExited, h1, hg1]
  | some G =>
    have hg1 : e1.Groups.get? ev.GroupName = some G := by rw [hgr]; exact hG
    have hrm : restartMachine e1 ev = restartMachine e ev := by
      simp only [restartMachine, machinesOf, hgr]
    obtain ⟨t', hrun, hct⟩ := createTask_ok svc hc e1 ev.GroupName (restartMachine e1 ev)
    rw [hrm, hcalls'] at hrun
    have hte : taskExited svc e ev = createTask svc e1 ev.GroupName (restartMachine e1 ev) := by
      simp only [taskExited, h1, hg1]
    rw [hct] at hte
    refine ⟨_, c, hte, hload, Or.inr ⟨G, t', rfl, hrun, ?_⟩⟩
    simp [hcalls', hrm]

/-- C10 at a concrete input: the calls of the task-exited branch for the task
of image "X" of "workers" are the six teardown calls on task 0, the container
deleted being the one the load returned, followed by one Create-Instance. -/
theorem taskExited_call_order_witness :
    (taskExited svcOk stateWorkers exitX).toOption.map
        (fun e => e.calls.drop stateWorkers.calls.length) =
      some [Call.kill 0 SIGTERM true, Call.deleteTask 0, Call.wait 0, Call.recvExit 0,
        Call.loadContainer "w0", Call.deleteContainer 10 true,
        Call.runTask { GUID := "w0", Remote := "X" } "discovery-workers", Call.wait 12,
        Call.start 12] ∧
      ∃ e' c, taskExited svcOk stateWorkers exitX = .ok e' ∧
        svcOk.loadContainer
          (stateWorkers.calls ++
            [Call.kill 0 SIGTERM true, Call.deleteTask 0, Call.wait 0, Call.recvExit 0])
          "w0" = .ok c ∧
        Call.deleteContainer c true ∈ e'.calls := by
  refine ⟨by rfl, ?_⟩
  obtain ⟨e', c, h1, h2, h3⟩ :=
    taskExited_call_order svcOk stateWorkers exitX 0 svcOk_createOk svcOk_teardownOk
      (by decide)
  refine ⟨e', c, h1, h2, ?_⟩
  rcases h3 with ⟨_, h⟩ | ⟨_, _, _, _, h⟩ <;> rw [h] <;> simp

/-- C10 as stated fails: the one signal the task-exited branch sends is
SIGTERM with the kill-all option, and SIGTERM is not the force-kill signal
SIGKILL. -/
theorem reap_signal_is_sigterm :
    (taskExited svcOk stateWorkers exitX).toOption.map
        (fun e => (signalsSent (e.calls.drop stateWorkers.calls.length)).map
          (fun s => (s.1, decide (s.2.1 = SIGTERM), decide (s.2.1 = SIGKILL), s.2.2))) =
      some [(0, true, false, true)] := by
  decide

/-- C4 (amended): for every assignment `st` of statuses to tasks, the status
and kill calls succeeding: when `G` is registered under `g` and every key of
its `Machines` map is bound in `Tasks`, `deleteGroup` returns with `g` removed
and has sent exactly one SIGTERM, in visiting order, for each key whose task
bound in `Tasks` has status Running, Paused or Pausing, to that bound task, and
none for a key whose bound task has another status such as Stopped or Created;
with all `N` bound tasks Running, `N` signals are sent. The bound tasks are the
tasks of the group itself right after `createGroup` of a group whose map is
keyed by the image references of its descriptors: then the signals go exactly
to the tasks `createGroup` started, one per instance whose status is Running,
Paused or Pausing. -/
theorem deleteGroup_signals (svc : Service) (e : Executor) (g : String) (G : Group)
    (st : Task → ProcessStatus)
    (hst : ∀ h t, svc.status h t = .ok (st t))
    (hk : ∀ h t, svc.kill h t SIGTERM false = .ok ()) :
    (e.Groups.get? g = some G → (∀ k ∈ G.Machines.keys, k ∈ e.Tasks.keys) →
        ∃ e', deleteGroup svc e g = .ok e' ∧ e'.Groups.get? g = none ∧ e'.Tasks = e.Tasks ∧
          signalsSent (e'.calls.drop e.calls.length) =
            ((handlesAt e.Tasks G.Machines.keys).filter
              (fun t => st t = ProcessStatus.Running ∨ st t = ProcessStatus.Paused ∨
                st t = ProcessStatus.Pausing)).map (fun t => (t, SIGTERM, false)) ∧
          (handlesAt e.Tasks G.Machines.keys).length = G.Machines.length ∧
          ((∀ t ∈ handlesAt e.Tasks G.Machines.keys, st t = ProcessStatus.Running) →
            signalsSent (e'.calls.drop e.calls.length) =
                (handlesAt e.Tasks G.Machines.keys).map (fun t => (t, SIGTERM, false)) ∧
              (signalsSent (e'.calls.drop e.calls.length)).length = G.Machines.length)) ∧
      (svc.CreateOk → (∀ p ∈ G.Machines, p.2.Remote = p.1) → G.Machines.keys.Nodup →
        ∃ e1 ws e2, createGroup svc e G = .ok e1 ∧ e1.watchers = e.watchers ++ ws ∧
          ws.map (fun w => (w.GroupName, w.TaskRemote)) =
            G.Machines.keys.map (fun k => (G.Name, k)) ∧
          deleteGroup svc e1 G.Name = .ok e2 ∧ e2.Groups.get? G.Name = none ∧
          signalsSent (e2.calls.drop e1.calls.length) =
            ((ws.map Watcher.task).filter
              (fun t => st t = ProcessStatus.Running ∨ st t = ProcessStatus.Paused ∨
                st t = ProcessStatus.Pausing)).map (fun t => (t, SIGTERM, false)) ∧
          ((∀ w ∈ ws, st w.task = ProcessStatus.Running) →
            (signalsSent (e2.calls.drop e1.calls.length)).length = G.Machines.length)) := by
  refine ⟨fun hG hb => deleteGroup_assigned svc e g G st hG hb hst hk, ?_⟩
  intro hc hkeyed hnd
  obtain ⟨e1, ws, h1, hw, hgr, hh, hn, hbd, _⟩ :=
    createTasks_handles svc hc G.Name G.Machines
      { e with Groups := e.Groups.set G.Name G } hkeyed hnd
  have hG1 : e1.Groups.get? G.Name = some G := by
    rw [hgr]; exact GoMap.get?_set_self _ _ _
  obtain ⟨e2, h2, hgone, _, hsig, _, hall⟩ :=
    deleteGroup_assigned svc e1 G.Name G st hG1 hbd hst hk
  refine ⟨e1, ws, e2, h1, hw, hn, h2, hgone, ?_, ?_⟩
  · rw [hsig, hh]
  · intro hrun
    refine (hall ?_).2
    intro t ht
    rw [← hh, List.mem_map] at ht
    obtain ⟨w, hwm, rfl⟩ := ht
    exact hrun w hwm

/-- C4 at a concrete input: "workers" is deleted while task 0 (image "X") is
Running and task 3 (image "Y") is Stopped; one SIGTERM is sent, to task 0, both
in the state `stateWorkers` and right after creating "workers" in the initial
state, where tasks 0 and 3 are the tasks created for the group. -/
theorem deleteGroup_signals_witness :
    (∃ e', deleteGroup svcMixed stateWorkers "workers" = .ok e' ∧
        e'.Groups.get? "workers" = none ∧
        signalsSent (e'.calls.drop stateWorkers.calls.length) = [(0, SIGTERM, false)]) ∧
      (∃ e1 e2, createGroup svcMixed (NewExecutor "ns") groupWorkers = .ok e1 ∧
        e1.watchers.map Watcher.task = [0, 3] ∧
        deleteGroup svcMixed e1 "workers" = .ok e2 ∧
        signalsSent (e2.calls.drop e1.calls.length) = [(0, SIGTERM, false)]) := by
  constructor
  · obtain ⟨e', h1, h2, _, h4, _⟩ :=
      (deleteGroup_signals svcMixed stateWorkers "workers" groupWorkers
        (fun t => if t = 0 then ProcessStatus.Running else ProcessStatus.Stopped)
        (fun _ _ => rfl) (fun _ _ => rfl)).1 (by decide) (by decide)
    exact ⟨e', h1, h2, h4⟩
  · obtain ⟨e1, ws, e2, h1, hw, _, h2, _, hsig, _⟩ :=
      (deleteGroup_signals svcMixed (NewExecutor "ns") "workers" groupWorkers
        (fun t => if t = 0 then ProcessStatus.Running else ProcessStatus.Stopped)
        (fun _ _ => rfl) (fun _ _ => rfl)).2
        ⟨fun h _ _ => ⟨h.length, rfl⟩, fun _ _ => rfl, fun _ _ => rfl⟩
        (by decide) (by decide)
    have he1 : e1 = stateWorkers := by
      have : createGroup svcMixed (NewExecutor "ns") groupWorkers = .ok stateWorkers := rfl
      rw [this] at h1
      exact (Except.ok.inj h1).symm
    subst he1
    have hws : ws = stateWorkers.watchers := by
      simpa [NewExecutor] using hw.symm
    subst hws
    exact ⟨stateWorkers, e2, rfl, by decide, h2, hsig⟩

/-- C4 as stated fails: "workers" (images "X", "Y") and then "other" (image
"X") are created and all tasks are Running; the tasks of "workers" are 0 and
3 and the task of "other" is 6. Deleting "workers" sends SIGTERM to tasks 6
and 3: its Running instance of image "X", task 0, gets no signal, and the
task of "other" gets one. -/
theorem deleteGroup_signals_task_of_other_group :
    (runEvents svcOk (NewExecutor "ns")
        [Event.newGroup groupWorkers, Event.newGroup groupOther]).toOption.map
        (fun e1 => (deleteGroup svcOk e1 "workers").toOption.map
          (fun e2 =>
            ((e1.watchers.filter (fun w => w.GroupName = "workers")).map Watcher.task,
              (e1.watchers.filter (fun w => w.GroupName = "other")).map Watcher.task,
              signalsSent (e2.calls.drop e1.calls.length)))) =
      some (some ([0, 3], [6], [(6, SIGTERM, false), (3, SIGTERM, false)])) := by
  rfl

/-- C5 (amended): for a state holding group `G` with an instance bound to task
`t`, every call succeeding: processing group-deleted then task-exited performs
no Create-Instance, while processing task-exited then group-deleted performs
exactly one (the restart precedes the delete); in both orders `G` is absent
from `Groups` at the end. If moreover no kill followed a delete of its task
before, no task bound in `Tasks` at a key of `G` was deleted before, the tasks
bound at the other keys of `G` differ from `t`, and the task the restart
returns is neither `t` nor a task deleted before, then in both orders the
whole history of calls has no kill sent to a task after the delete of that
task. -/
theorem delete_exit_orders (svc : Service) (e : Executor) (ev : TaskExitCode) (t : Task)
    (G : Group) (m : Machine) (hc : svc.CreateOk) (hsvc : svc.TeardownOk)
    (hdel : svc.DeleteOk)
    (hG : e.Groups.get? ev.GroupName = some G)
    (hm : G.Machines.get? ev.TaskRemote = some m) (hr : m.Remote = ev.TaskRemote)
    (ht : e.Tasks.get? ev.TaskRemote = some t)
    (hb : ∀ k ∈ G.Machines.keys, k ∈ e.Tasks.keys) :
    (∃ eA, runEvents svc e [Event.deleteGroup ev.GroupName, Event.taskExit ev] = .ok eA ∧
        eA.Groups.get? ev.GroupName = none ∧
        createCount eA.calls = createCount e.calls) ∧
      (∃ eB, runEvents svc e [Event.taskExit ev, Event.deleteGroup ev.GroupName] = .ok eB ∧
        eB.Groups.get? ev.GroupName = none ∧
        createCount eB.calls = createCount e.calls + 1) ∧
      (killedAfterDelete e.calls = false →
        (∀ k ∈ G.Machines.keys, ∀ u, e.Tasks.get? k = some u → u ∉ deletedTasks e.calls) →
        (∀ k ∈ G.Machines.keys, k ≠ ev.TaskRemote → e.Tasks.get? k ≠ some t) →
        (∀ c t', svc.runTask (e.calls ++ teardownCalls t ev c) m
            ("discovery-" ++ ev.GroupName) = .ok t' → t' ≠ t ∧ t' ∉ deletedTasks e.calls) →
        (∃ eA, runEvents svc e [Event.deleteGroup ev.GroupName, Event.taskExit ev] = .ok eA ∧
            killedAfterDelete eA.calls = false) ∧
          (∃ eB, runEvents svc e [Event.taskExit ev, Event.deleteGroup ev.GroupName] =
              .ok eB ∧
            killedAfterDelete eB.calls = false)) := by
  have hrk : ev.TaskRemote ∈ G.Machines.keys := (GoMap.mem_keys_iff _ _).2 ⟨m, hm⟩
  -- delete, then exit
  obtain ⟨LA, hLA, hpropA⟩ := deleteGroup_ok svc hdel e ev.GroupName G hG hb
  obtain ⟨eA, cA, hA1, hcallsA, hgrA, _, _⟩ := taskExited_absent svc hsvc
    { e with calls := e.calls ++ LA, Groups := e.Groups.delete ev.GroupName } ev t ht
    (GoMap.get?_delete_self _ _)
  have hrunA : runEvents svc e [Event.deleteGroup ev.GroupName, Event.taskExit ev] = .ok eA := by
    simp [runEvents, step, hLA, hA1]
  -- exit, then delete
  obtain ⟨e1, c, t', h1, hrun, hcalls, hgr, htk, _⟩ :=
    taskExited_present svc hc hsvc e ev t G ht hG
  have hrm : restartMachine e ev = m := by
    simp [restartMachine, machinesOf, hG, hm]
  rw [hrm] at hrun hcalls htk
  rw [hr] at htk
  have hG1 : e1.Groups.get? ev.GroupName = some G := by rw [hgr]; exact hG
  have hb1 : ∀ k ∈ G.Machines.keys, k ∈ e1.Tasks.keys := by
    intro k hk
    rw [htk, GoMap.mem_keys_set]
    exact Or.inl (hb k hk)
  obtain ⟨LB, hLB, hpropB⟩ := deleteGroup_ok svc hdel e1 ev.GroupName G hG1 hb1
  have hrunB : runEvents svc e [Event.taskExit ev, Event.deleteGroup ev.GroupName] =
      .ok { e1 with calls := e1.calls ++ LB, Groups := e1.Groups.delete ev.GroupName } := by
    simp only [runEvents, step, h1, hLB]
  refine ⟨⟨eA, hrunA, ?_, ?_⟩, ⟨_, hrunB, ?_, ?_⟩, ?_⟩
  · rw [hgrA]; exact GoMap.get?_delete_self _ _
  · obtain ⟨hc0, _, _⟩ := statusKill_calls (fun _ => True) LA (by
      intro x hxL
      obtain ⟨_, _, u, _, hxu⟩ := hpropA x hxL
      exact ⟨u, trivial, hxu⟩)
    rw [hcallsA]
    simp only [createCount_append, createCount_teardownCalls, hc0]
    rfl
  · exact GoMap.get?_delete_self _ _
  · obtain ⟨hc0, _, _⟩ := statusKill_calls (fun _ => True) LB (by
      intro x hxL
      obtain ⟨_, _, u, _, hxu⟩ := hpropB x hxL
      exact ⟨u, trivial, hxu⟩)
    simp only [hcalls, createCount_append, createCount_teardownCalls, hc0]
    simp [createCount]
  · intro hclean hlive hdist hfresh
    have htlive : t ∉ deletedTasks e.calls := hlive _ hrk t ht
    obtain ⟨hne, hnew⟩ := hfresh c t' hrun
    constructor
    · refine ⟨eA, hrunA, ?_⟩
      obtain ⟨_, hkad, hsig⟩ := statusKill_calls (fun u => u ∉ deletedTasks e.calls) LA (by
        intro x hxL
        obtain ⟨k, hk, u, hu, hxu⟩ := hpropA x hxL
        exact ⟨u, hlive k hk u hu, hxu⟩)
      rw [hcallsA]
      simp only [List.append_assoc]
      refine killedAfterDelete_append_false _ _ hclean ?_ ?_
      · rw [hkad]
        simpa using killedAfterDelete_teardownCalls t ev cA []
      · intro s hs
        rw [signalsSent_append, List.mem_append] at hs
        rcases hs with hs | hs
        · exact hsig s hs
        · simp only [teardownCalls, signalsSent, List.mem_singleton] at hs
          rw [hs]
          exact htlive
    · refine ⟨_, hrunB, ?_⟩
      obtain ⟨_, hkad, hsig⟩ :=
        statusKill_calls (fun u => u ≠ t ∧ u ∉ deletedTasks e.calls) LB (by
          intro x hxL
          obtain ⟨k, hk, u, hu, hxu⟩ := hpropB x hxL
          refine ⟨u, ?_, hxu⟩
          rw [htk] at hu
          by_cases hkr : k = ev.TaskRemote
          · rw [hkr, GoMap.get?_set_self] at hu
            cases hu
            exact ⟨hne, hnew⟩
          · rw [GoMap.get?_set_ne _ _ _ _ (fun h => hkr h.symm)] at hu
            exact ⟨fun hut => hdist k hk hkr (by rw [hu, hut]), hlive k hk u hu⟩)
      have hkadB : killedAfterDelete LB = false := by
        have := hkad []
        simpa using this
      simp only [hcalls, List.append_assoc]
      refine killedAfterDelete_append_false _ _ hclean ?_ ?_
      · rw [killedAfterDelete_teardownCalls]
        simp only [List.cons_append, List.append_eq, List.nil_append, signalsSent,
          killedAfterDelete, hkadB, Bool.or_false, List.any_eq_false]
        intro s hs
        simpa using (hsig s hs).1
      · intro s hs
        rw [signalsSent_append, List.mem_append] at hs
        rcases hs with hs | hs
        · simp only [teardownCalls, signalsSent, List.mem_singleton] at hs
          rw [hs]
          exact htlive
        · simp only [List.cons_append, List.append_eq, List.nil_append, signalsSent] at hs
          exact (hsig s hs).2

/-- C5 at a concrete input: in the state where "workers" runs tasks 0 and 3,
deleting "workers" and the exit of task 0 (image "X"), in either order, end
with "workers" absent; two tasks were created before, no more after
delete-then-exit, one more after exit-then-delete, and in neither history is a
task signalled after its delete. -/
theorem delete_exit_orders_witness :
    (∃ eA, runEvents svcOk stateWorkers [Event.deleteGroup "workers", Event.taskExit exitX] =
          .ok eA ∧
        eA.Groups.get? "workers" = none ∧ createCount eA.calls = 2) ∧
      (∃ eB, runEvents svcOk stateWorkers [Event.taskExit exitX, Event.deleteGroup "workers"] =
          .ok eB ∧
        eB.Groups.get? "workers" = none ∧ createCount eB.calls = 2 + 1) ∧
      (∃ eA, runEvents svcOk stateWorkers [Event.deleteGroup "workers", Event.taskExit exitX] =
          .ok eA ∧ killedAfterDelete eA.calls = false) ∧
      (∃ eB, runEvents svcOk stateWorkers [Event.taskExit exitX, Event.deleteGroup "workers"] =
          .ok eB ∧ killedAfterDelete eB.calls = false) := by
  have h := delete_exit_orders svcOk stateWorkers exitX 0 groupWorkers
    { GUID := "w0", Remote := "X" } svcOk_createOk svcOk_teardownOk svcOk_deleteOk
    (by decide) (by decide) (by decide) (by decide) (by decide)
  refine ⟨h.1, h.2.1, h.2.2 (by decide) ?_ (by decide) ?_⟩
  · intro k _ u _
    simp [stateWorkers, deletedTasks]
  · intro c t' hrun
    simp only [svcOk, Except.ok.injEq] at hrun
    subst hrun
    simp [teardownCalls, stateWorkers, deletedTasks]

/-- C5 as stated fails: from the state where "workers" runs its two tasks,
delete-then-exit leaves the number of tasks created at 2, while
exit-then-delete raises it to 3: that order restarts the exited instance. -/
theorem exit_before_delete_restarts :
    ((runEvents svcOk stateWorkers
          [Event.deleteGroup "workers", Event.taskExit exitX]).toOption.map
        (fun e => (e.Groups, createCount e.calls)),
      (runEvents svcOk stateWorkers
          [Event.taskExit exitX, Event.deleteGroup "workers"]).toOption.map
        (fun e => (e.Groups, createCount e.calls))) =
      (some ([], 2), some ([], 3)) := by
  decide

/-- X1: along every run of the event loop that does not abort, no key is
removed from `Tasks`, and if every exit watcher had its execution key bound in
`Tasks` at the start, as in the initial state, this is so at the end: a
termination event a watcher sends always finds a task at `Tasks[TaskRemote]`. -/
theorem runEvents_watchersBound (svc : Service) (evs : List Event) (e e' : Executor)
    (hw : e.WatchersBound) (h : runEvents svc e evs = .ok e') :
    e'.WatchersBound ∧ ∀ k ∈ e.Tasks.keys, k ∈ e'.Tasks.keys := by
  induction evs generalizing e with
  | nil =>
    simp only [runEvents, Except.ok.injEq] at h
    subst h
    exact ⟨hw, fun _ hk => hk⟩
  | cons ev evs ih =>
    simp only [runEvents] at h
    split at h
    · cases h
    · rename_i e1 h1
      obtain ⟨a1, a2⟩ := step_inv svc e e1 ev h1
      obtain ⟨b1, b2⟩ := ih e1 (a2 hw) h
      exact ⟨b1, fun k hk => b2 k (a1 k hk)⟩

/-- X1 at a concrete input: after "workers" is created, deleted and its task
of image "X" has exited, the two watchers started are still bound. -/
theorem runEvents_watchersBound_witness :
    ∃ e', runEvents svcOk (NewExecutor "ns")
        [Event.newGroup groupWorkers, Event.deleteGroup "workers", Event.taskExit exitX] =
          .ok e' ∧
      e'.watchers.map Watcher.TaskRemote = ["X", "Y"] ∧ e'.WatchersBound :=
  ⟨_, rfl, by decide,
    (runEvents_watchersBound svcOk
      [Event.newGroup groupWorkers, Event.deleteGroup "workers", Event.taskExit exitX]
      (NewExecutor "ns") _ (by intro w hmem; simp [NewExecutor] at hmem) rfl).1⟩

/-! ## Theorems: deployer -/

/-- C7: `Job.Containers ns` is the list of exactly `j.Instances` descriptors in
index order whose element at index `i` has ID `j.Name` followed by "." and the
decimal rendering of `i`, Remote `j.Remote` and Namespace `ns`; it is empty
when `Instances` is 0. -/
theorem Containers_spec (j : Job) (ns : String) :
    j.Containers ns =
        (List.range j.Instances).map
          (fun i => ({ ID := j.Name ++ "." ++ Nat.repr i, Remote := j.Remote,
                       Namespace := ns } : Container)) ∧
      (j.Containers ns).length = j.Instances ∧
      (∀ i, i < j.Instances →
        (j.Containers ns).get? i =
          some { ID := j.Name ++ "." ++ Nat.repr i, Remote := j.Remote, Namespace := ns }) ∧
      (j.Instances = 0 → j.Containers ns = []) := by
  have h := Containers_eq_map j ns
  refine ⟨?_, ?_, ?_, ?_⟩
  · rw [h]; rfl
  · rw [h]; simp
  · intro i hi
    rw [h]
    simp [List.getElem?_range hi, Job.ContainerID]
  · intro h0
    rw [h, h0]; rfl

/-- C8: `Job.ContainerID` gives the same string for two (job, index) pairs only
if the job names and the indices are equal; so the descriptors of one job have
pairwise distinct IDs, and descriptors of two jobs with different names never
share an ID. -/
theorem ContainerID_unique (j₁ j₂ : Job) (i₁ i₂ : Nat) (ns₁ ns₂ : String) :
    (j₁.ContainerID i₁ = j₂.ContainerID i₂ → j₁.Name = j₂.Name ∧ i₁ = i₂) ∧
      ((j₁.Containers ns₁).map Container.ID).Nodup ∧
      (j₁.Name ≠ j₂.Name →
        ∀ c₁ ∈ j₁.Containers ns₁, ∀ c₂ ∈ j₂.Containers ns₂, c₁.ID ≠ c₂.ID) := by
  refine ⟨ContainerID_inj j₁ j₂ i₁ i₂, ?_, ?_⟩
  · rw [Containers_eq_map, List.map_map]
    refine List.Nodup.map ?_ (List.nodup_range _)
    intro a b hab
    exact (ContainerID_inj j₁ j₁ a b hab).2
  · intro hne c₁ h₁ c₂ h₂ hid
    rw [Containers_eq_map, List.mem_map] at h₁ h₂
    obtain ⟨a, _, rfl⟩ := h₁
    obtain ⟨b, _, rfl⟩ := h₂
    exact hne (ContainerID_inj j₁ j₂ a b hid).1

/-- C8 at a concrete input: the job named "a.1" at index 2 and the job named
"a" at index 12 get different identifiers, and the three descriptors of a job
have distinct IDs. -/
theorem ContainerID_unique_witness :
    ((⟨"a", "img", 3⟩ : Job).Containers "ns").map Container.ID = ["a.0", "a.1", "a.2"] ∧
      ∀ c₁ ∈ (⟨"a", "img", 3⟩ : Job).Containers "ns",
        ∀ c₂ ∈ (⟨"b", "img", 3⟩ : Job).Containers "ns", c₁.ID ≠ c₂.ID :=
  ⟨by decide, (ContainerID_unique ⟨"a", "img", 3⟩ ⟨"b", "img", 3⟩ 0 0 "ns" "ns").2.2 (by decide)⟩

end Discovery
